import Mathlib

/-!
Verification development for the distributed timeline reconstructor
(`distributed_timeline_reconstructor.py`).

The pipeline validates raw JSON log records, indexes them by id, groups
them into traces, checks trace completeness, topologically sorts each
complete trace by its causal references (Kahn's algorithm with a
`(logical_clock, timestamp_ms)` tie-break), counts clock-skew events,
merges the sorted traces by earliest timestamp and assembles a report.

JSON numbers are modelled as integers (the reconstructor only compares
and sorts them, it never does arithmetic on them); Python dicts are
modelled as association lists with last-write-wins lookup, matching
dict-comprehension semantics.
-/

namespace Reconstructor

/-- A JSON value, as read from the input document. -/
inductive Json where
  | null : Json
  | bool : Bool → Json
  | num : Int → Json
  | str : String → Json
  | arr : List Json → Json
  | obj : List (String × Json) → Json

/-- A validated log record (the eight schema fields of §3). -/
structure LogRecord where
  log_id : String
  trace_id : String
  node_id : String
  event_type : String
  timestamp_ms : Int
  logical_clock : Int
  payload : List (String × Json)
  causal_ref : Option String

/-- `REQUIRED_FIELDS` from the source. -/
def REQUIRED_FIELDS : List String :=
  ["log_id", "trace_id", "node_id", "event_type",
   "timestamp_ms", "logical_clock", "payload", "causal_ref"]

/-- `VALID_EVENT_TYPES` from the source. -/
def VALID_EVENT_TYPES : List String := ["INIT", "PROCESS", "END"]

/-- `isinstance(x, str) and x` on an optional field value. -/
def isNonEmptyStr : Option Json → Bool
  | some (.str s) => decide (s ≠ "")
  | _ => false

/-- `isinstance(x, str)` on an optional field value. -/
def isStr : Option Json → Bool
  | some (.str _) => true
  | _ => false

/-- `x in VALID_EVENT_TYPES` on an optional field value. -/
def isValidEventType : Option Json → Bool
  | some (.str s) => decide (s ∈ VALID_EVENT_TYPES)
  | _ => false

/-- `isinstance(x, (int, float))` on an optional field value.  Python's
`bool` is a subclass of `int` and `json.load` maps JSON `true`/`false`
to `True`/`False`, so JSON booleans pass this check too. -/
def isNum : Option Json → Bool
  | some (.num _) => true
  | some (.bool _) => true
  | _ => false

/-- `isinstance(x, dict)` on an optional field value. -/
def isObjOpt : Option Json → Bool
  | some (.obj _) => true
  | _ => false

/-- `x is None or isinstance(x, str)`; a missing key also reads as `None`. -/
def isNullOrStr : Option Json → Bool
  | none => true
  | some .null => true
  | some (.str _) => true
  | _ => false

/-- `validate_log` (source lines 26-79): the short-circuiting if-chain.
Returns `(is_valid, log_id_or_none)`. -/
def validate_log (log : Json) : Bool × Option String :=
  match log with
  | .obj kvs =>
    match kvs.lookup "log_id" with
    | some (.str log_id) =>
      if log_id = "" then (false, none)
      else if ! (REQUIRED_FIELDS.all fun f => (kvs.lookup f).isSome) then (false, some log_id)
      else if ! isNonEmptyStr (kvs.lookup "trace_id") then (false, some log_id)
      else if ! isStr (kvs.lookup "node_id") then (false, some log_id)
      else if ! isValidEventType (kvs.lookup "event_type") then (false, some log_id)
      else if ! isNum (kvs.lookup "timestamp_ms") then (false, some log_id)
      else if ! isNum (kvs.lookup "logical_clock") then (false, some log_id)
      else if ! isObjOpt (kvs.lookup "payload") then (false, some log_id)
      else if ! isNullOrStr (kvs.lookup "causal_ref") then (false, some log_id)
      else (true, some log_id)
    | _ => (false, none)
  | _ => (false, none)

/-- The numeric value of a JSON field as Python uses it downstream:
numbers as themselves, booleans as `1`/`0` (Python's `bool` is an `int`,
so `True` compares, sorts and minimizes exactly like `1`). -/
def jsonNumValue : Json → Option Int
  | .num n => some n
  | .bool b => some (if b then 1 else 0)
  | _ => none

/-- The structured view of a raw record: `some` exactly on records that
`validate_log` accepts, extracting the eight validated fields (booleans
in the numeric fields read as `1`/`0`, matching Python). -/
def toLogRecord (log : Json) : Option LogRecord :=
  match log with
  | .obj kvs =>
    match kvs.lookup "log_id", kvs.lookup "trace_id", kvs.lookup "node_id",
          kvs.lookup "event_type", kvs.lookup "timestamp_ms", kvs.lookup "logical_clock",
          kvs.lookup "payload", kvs.lookup "causal_ref" with
    | some (.str log_id), some (.str trace_id), some (.str node_id),
      some (.str event_type), some tsv, some clkv,
      some (.obj payload), some causal_ref =>
      match jsonNumValue tsv, jsonNumValue clkv with
      | some timestamp_ms, some logical_clock =>
        if log_id ≠ "" ∧ trace_id ≠ "" ∧ event_type ∈ VALID_EVENT_TYPES then
          match causal_ref with
          | .null => some ⟨log_id, trace_id, node_id, event_type, timestamp_ms, logical_clock, payload, none⟩
          | .str c => some ⟨log_id, trace_id, node_id, event_type, timestamp_ms, logical_clock, payload, some c⟩
          | _ => none
        else none
      | _, _ => none
    | _, _, _, _, _, _, _, _ => none
  | _ => none

/-- Lookup in a Python dict built by successive insertion: the LAST
binding of a key wins (later entries overwrite earlier ones). -/
def dictGet? : List (String × α) → String → Option α
  | [], _ => none
  | p :: rest, k =>
    match dictGet? rest k with
    | some v => some v
    | none => if p.1 = k then some p.2 else none

/-- `build_log_index` (source lines 82-92): `{log['log_id']: log for log in valid_logs}`. -/
def build_log_index (valid_logs : List LogRecord) : List (String × LogRecord) :=
  valid_logs.map fun log => (log.log_id, log)

/-- First-match association lookup, used to reason about the trace
grouping (whose keys are pairwise distinct, so first match is THE match). -/
def groupGet? : List (String × List LogRecord) → String → Option (List LogRecord)
  | [], _ => none
  | (k, ls) :: rest, t => if k = t then some ls else groupGet? rest t

/-- `addToGroup acc t log` appends `log` to the entry of key `t`
(creating it at the end if absent), mirroring `defaultdict(list)` append. -/
def addToGroup : List (String × List LogRecord) → String → LogRecord → List (String × List LogRecord)
  | [], t, log => [(t, [log])]
  | (k, ls) :: rest, t, log =>
    if k = t then (k, ls ++ [log]) :: rest
    else (k, ls) :: addToGroup rest t log

/-- `group_by_trace` (source lines 95-108): partition the valid records
by `trace_id`, keys in first-occurrence order, each group in input order. -/
def group_by_trace (valid_logs : List LogRecord) : List (String × List LogRecord) :=
  valid_logs.foldl (fun acc log => addToGroup acc log.trace_id log) []

/-- `detect_orphaned_logs` (source lines 111-127): ids of valid records
whose `causal_ref` points outside the index (set semantics: deduplicated). -/
def detect_orphaned_logs (valid_logs : List LogRecord)
    (log_index : List (String × LogRecord)) : List String :=
  valid_logs.foldl (fun orphaned log =>
    match log.causal_ref with
    | some causal_ref =>
      if (dictGet? log_index causal_ref).isNone then
        if decide (log.log_id ∈ orphaned) then orphaned else orphaned ++ [log.log_id]
      else orphaned
    | none => orphaned) []

/-- `detect_clock_skew` (source lines 130-141): successor timestamp
strictly before the predecessor's. -/
def detect_clock_skew (log parent_log : LogRecord) : Bool :=
  decide (log.timestamp_ms < parent_log.timestamp_ms)

/-- `check_trace_completeness` (source lines 144-176): first failing
reason among `missing_init`, `missing_end`, `broken_causal_chain`, else
`complete`.  Causal references are resolved in the GLOBAL index. -/
def check_trace_completeness (trace_logs : List LogRecord)
    (log_index : List (String × LogRecord)) : Bool × String :=
  if ! trace_logs.any (fun log => decide (log.event_type = "INIT")) then (false, "missing_init")
  else if ! trace_logs.any (fun log => decide (log.event_type = "END")) then (false, "missing_end")
  else if trace_logs.any (fun log =>
      match log.causal_ref with
      | some causal_ref => (dictGet? log_index causal_ref).isNone
      | none => false) then (false, "broken_causal_chain")
  else (true, "complete")

/-- The sort key comparison of the topological sorter:
`(logical_clock, timestamp_ms)` ascending, as a boolean lexicographic `≤`. -/
def keyLe (a b : LogRecord) : Bool :=
  decide (a.logical_clock < b.logical_clock) ||
    (decide (a.logical_clock = b.logical_clock) && decide (a.timestamp_ms ≤ b.timestamp_ms))

/-- Strict version of `keyLe`: `a`'s key lexicographically below `b`'s. -/
def keyLt (a b : LogRecord) : Bool :=
  decide (a.logical_clock < b.logical_clock) ||
    (decide (a.logical_clock = b.logical_clock) && decide (a.timestamp_ms < b.timestamp_ms))

/-- `keyLe` as a relation, for `List.insertionSort`. -/
def rKey (a b : LogRecord) : Prop := keyLe a b = true

instance : DecidableRel rKey := fun a b => decidable_of_iff (keyLe a b = true) Iff.rfl

instance : IsTotal LogRecord rKey := by
  constructor
  intro a b
  unfold rKey keyLe
  simp only [Bool.or_eq_true, Bool.and_eq_true, decide_eq_true_eq]
  omega

instance : IsTrans LogRecord rKey := by
  constructor
  intro a b c
  unfold rKey keyLe
  simp only [Bool.or_eq_true, Bool.and_eq_true, decide_eq_true_eq]
  omega

/-- `log.get('causal_ref') is not None and causal_ref in trace_log_ids`:
whether a record's causal reference resolves within its own trace. -/
def has_local_ref (ids : List String) (log : LogRecord) : Bool :=
  match log.causal_ref with
  | some c => decide (c ∈ ids)
  | none => false

/-- The initial in-degree table of `topological_sort_trace` (source lines
195-202): each record with a trace-locally resolving `causal_ref`
contributes one to the in-degree of its own `log_id`. -/
def in_degree0 (trace_logs : List LogRecord) (ids : List String) (k : String) : Int :=
  ((trace_logs.filter fun log => decide (log.log_id = k) && has_local_ref ids log).length : Int)

/-- The adjacency list `graph` of `topological_sort_trace` (source lines
196-202): the children of `c` are the `log_id`s of records whose
`causal_ref` is `c` and resolves within the trace, in input order. -/
def graph_children (trace_logs : List LogRecord) (ids : List String) (c : String) : List String :=
  (trace_logs.filter fun log => decide (log.causal_ref = some c) && has_local_ref ids log).map
    (fun log => log.log_id)

/-- `log_dict` of `topological_sort_trace`: `{log['log_id']: log}`. -/
def trace_dict (trace_logs : List LogRecord) : List (String × LogRecord) :=
  trace_logs.map fun log => (log.log_id, log)

/-- The inner loop over `children` (source lines 227-230): decrement each
child's in-degree; children reaching zero join `next_batch` (looked up in
`log_dict`, where every child id is present). -/
def processChildren (ldict : List (String × LogRecord)) :
    (String → Int) × List LogRecord → List String → (String → Int) × List LogRecord
  | acc, [] => acc
  | acc, child_id :: children =>
    let d := fun x => if x = child_id then acc.1 x - 1 else acc.1 x
    if d child_id = 0 then
      match dictGet? ldict child_id with
      | some r => processChildren ldict (d, acc.2 ++ [r]) children
      | none => processChildren ldict (d, acc.2) children
    else processChildren ldict (d, acc.2) children

/-- The `while queue` loop of Kahn's algorithm (source lines 218-235): pop
the front record, emit it, decrement its children's in-degrees, sort the
newly-ready batch by `(logical_clock, timestamp_ms)` and append it to the
queue.  The output is the sequence of popped records.  The fuel only
bounds the iteration count; `topological_sort_trace` passes
`2 * n + 1` fuel, which the loop can never exhaust: there are at most `n`
initial queue entries and every later enqueue consumes one of the at most
`n` in-degree crossings to zero (in-degrees never increase), so the loop
pops at most `2 * n` records before the queue empties. -/
def kahnLoop (ldict : List (String × LogRecord)) (graph : String → List String) :
    Nat → List LogRecord → (String → Int) → List LogRecord
  | 0, _, _ => []
  | _ + 1, [], _ => []
  | fuel + 1, current :: queue, in_degree =>
    current :: kahnLoop ldict graph fuel
      (queue ++ List.insertionSort rKey
        (processChildren ldict (in_degree, []) (graph current.log_id)).2)
      (processChildren ldict (in_degree, []) (graph current.log_id)).1

/-- `topological_sort_trace` (source lines 179-237).  The `log_index`
parameter is accepted but unused, exactly as in the source. -/
def topological_sort_trace (trace_logs : List LogRecord)
    (log_index : List (String × LogRecord)) : List LogRecord :=
  let ids := trace_logs.map fun log => log.log_id
  let in_degree := fun k => in_degree0 trace_logs ids k
  let queue := List.insertionSort rKey
    (trace_logs.filter fun log => decide (in_degree log.log_id = 0))
  kahnLoop (trace_dict trace_logs) (graph_children trace_logs ids)
    (2 * trace_logs.length + 1) queue in_degree

/-- Step one of `process_logs` (source lines 263-269): the valid records,
in input order, as structured views. -/
def valid_records (raw_logs : List Json) : List LogRecord :=
  raw_logs.filterMap toLogRecord

/-- Step one of `process_logs` (source lines 263-269): ids of rejected
records whose id was recoverable (`if log_id:` keeps truthy ids only),
in input order. -/
def malformed_ids : List Json → List String
  | [] => []
  | log :: rest =>
    match validate_log log with
    | (true, _) => malformed_ids rest
    | (false, some log_id) =>
      if log_id = "" then malformed_ids rest else log_id :: malformed_ids rest
    | (false, none) => malformed_ids rest

/-- The global log index of the run (source line 275). -/
def run_log_index (raw_logs : List Json) : List (String × LogRecord) :=
  build_log_index (valid_records raw_logs)

/-- The orphan set of the run (source line 279). -/
def run_orphaned (raw_logs : List Json) : List String :=
  detect_orphaned_logs (valid_records raw_logs) (run_log_index raw_logs)

/-- The trace grouping of the run (source line 284). -/
def run_traces (raw_logs : List Json) : List (String × List LogRecord) :=
  group_by_trace (valid_records raw_logs)

/-- `corrupted_traces` of the run, in iteration order (source lines 293-298). -/
def run_corrupted_traces (raw_logs : List Json) : List String :=
  ((run_traces raw_logs).filter fun p =>
    ! (check_trace_completeness p.2 (run_log_index raw_logs)).1).map Prod.fst

/-- `complete_traces` of the run, in iteration order (source lines 293-298). -/
def run_complete_traces (raw_logs : List Json) : List (String × List LogRecord) :=
  (run_traces raw_logs).filter fun p =>
    (check_trace_completeness p.2 (run_log_index raw_logs)).1

/-- `all_sorted_traces` of the run (source lines 307-310). -/
def run_sorted_traces (raw_logs : List Json) : List (String × List LogRecord) :=
  (run_complete_traces raw_logs).map fun p =>
    (p.1, topological_sort_trace p.2 (run_log_index raw_logs))

/-- The per-record skew condition of the walk in `process_logs` (source
lines 313-317): the record's `causal_ref` is non-null, resolves in the
GLOBAL index, and `detect_clock_skew` fires against the resolved parent. -/
def skew_test (log_index : List (String × LogRecord)) (log : LogRecord) : Bool :=
  match log.causal_ref with
  | some causal_ref =>
    match dictGet? log_index causal_ref with
    | some parent_log => detect_clock_skew log parent_log
    | none => false
  | none => false

/-- The clock-skew walk over one sorted trace (source lines 312-318):
count one event per emitted record satisfying `skew_test`. -/
def trace_skew_fold (log_index : List (String × LogRecord)) (acc : Nat)
    (sorted_trace : List LogRecord) : Nat :=
  sorted_trace.foldl (fun a log => if skew_test log_index log then a + 1 else a) acc

/-- `clock_skew_count` of the run, accumulated across all complete traces. -/
def run_clock_skew_count (raw_logs : List Json) : Nat :=
  (run_sorted_traces raw_logs).foldl
    (fun acc p => trace_skew_fold (run_log_index raw_logs) acc p.2) 0

/-- The merge key of `all_sorted_traces.sort` (source lines 320-323):
minimum `timestamp_ms` of the sorted trace, `none` (sorting last) for an
empty one (Python's `float('inf')`). -/
def trace_min_ts (p : String × List LogRecord) : Option Int :=
  match p.2.map (fun log => log.timestamp_ms) with
  | [] => none
  | t :: ts => some (ts.foldl min t)

/-- Boolean comparison of merge keys: `none` is greatest. -/
def merge_le (a b : String × List LogRecord) : Bool :=
  match trace_min_ts a, trace_min_ts b with
  | some x, some y => decide (x ≤ y)
  | some _, none => true
  | none, some _ => false
  | none, none => true

/-- `merge_le` as a relation, for `List.insertionSort`. -/
def rMerge (a b : String × List LogRecord) : Prop := merge_le a b = true

instance : DecidableRel rMerge := fun a b => decidable_of_iff (merge_le a b = true) Iff.rfl

instance : IsTotal (String × List LogRecord) rMerge := by
  constructor
  intro a b
  unfold rMerge merge_le
  cases trace_min_ts a <;> cases trace_min_ts b <;> simp <;> omega

instance : IsTrans (String × List LogRecord) rMerge := by
  constructor
  intro a b c
  unfold rMerge merge_le
  cases trace_min_ts a <;> cases trace_min_ts b <;> cases trace_min_ts c <;> simp <;> omega

/-- `all_sorted_traces` after the merge sort (source lines 321-323). -/
def run_merged (raw_logs : List Json) : List (String × List LogRecord) :=
  List.insertionSort rMerge (run_sorted_traces raw_logs)

/-- `sorted_timeline` of the run (source lines 325-326): the sorted
traces concatenated in merge order. -/
def run_sorted_timeline (raw_logs : List Json) : List LogRecord :=
  ((run_merged raw_logs).map Prod.snd).flatten

/-- Lexicographic order on strings, used by `sorted(...)` in the report. -/
def strLe (a b : String) : Prop := a ≤ b

instance : DecidableRel strLe := fun a b => decidable_of_iff (a ≤ b) Iff.rfl

instance : IsTotal String strLe := ⟨fun a b => le_total a b⟩

instance : IsTrans String strLe := ⟨fun _ _ _ h h' => le_trans h h'⟩

/-- The output document (source lines 332-340). -/
structure Output where
  sorted_timeline : List LogRecord
  corrupted_traces : List String
  orphaned_logs_count : Nat
  clock_skew_events_count : Nat
  malformed_logs : List String

/-- `process_logs` (source lines 240-360), minus file I/O and printing:
the whole pipeline from the parsed `raw_logs` and `system_config` to the
output document.  `max_clock_drift_ms` is read (with default `5000`)
exactly as in the source, and like the source it is never used. -/
def process_logs (raw_logs : List Json) (system_config : List (String × Json)) : Output :=
  let max_clock_drift_ms : Json :=
    (dictGet? system_config "max_clock_drift_ms").getD (Json.num 5000)
  { sorted_timeline := run_sorted_timeline raw_logs
    corrupted_traces := List.insertionSort strLe (run_corrupted_traces raw_logs)
    orphaned_logs_count := (run_orphaned raw_logs).length
    clock_skew_events_count := run_clock_skew_count raw_logs
    malformed_logs := List.insertionSort strLe (malformed_ids raw_logs) }

/-! ### Declarative predicates used to state the claims -/

/-- The declarative well-formedness of a raw record, parameterised by the
set of admissible event types: all eight required fields are present with
correct types (`log_id` and `trace_id` non-empty strings, `node_id` a
string, `timestamp_ms` and `logical_clock` numeric, `payload` a
structured object, `causal_ref` null or a string) and `event_type` is in
the given closed set. -/
def WellFormedRecord (eventTypes : List String) (log : Json) : Prop :=
  ∃ kvs, log = .obj kvs ∧
    (∃ s, kvs.lookup "log_id" = some (.str s) ∧ s ≠ "") ∧
    (∃ s, kvs.lookup "trace_id" = some (.str s) ∧ s ≠ "") ∧
    (∃ s, kvs.lookup "node_id" = some (.str s)) ∧
    (∃ s, kvs.lookup "event_type" = some (.str s) ∧ s ∈ eventTypes) ∧
    (∃ n, kvs.lookup "timestamp_ms" = some (.num n)) ∧
    (∃ n, kvs.lookup "logical_clock" = some (.num n)) ∧
    (∃ p, kvs.lookup "payload" = some (.obj p)) ∧
    (kvs.lookup "causal_ref" = some .null ∨ ∃ s, kvs.lookup "causal_ref" = some (.str s))

/-- Numeric-typed in the sense of Python's `isinstance(x, (int, float))`:
a JSON number, or a JSON boolean (`bool` is a subclass of `int`). -/
def NumericOrBool (o : Option Json) : Prop :=
  (∃ n, o = some (.num n)) ∨ ∃ b, o = some (.bool b)

/-- The declarative acceptance predicate the validator actually decides:
like `WellFormedRecord`, but with the event-type set the CODE accepts and
with the numeric fields admitting booleans, exactly as Python's
`isinstance` check does. -/
def ValidRecord (log : Json) : Prop :=
  ∃ kvs, log = .obj kvs ∧
    (∃ s, kvs.lookup "log_id" = some (.str s) ∧ s ≠ "") ∧
    (∃ s, kvs.lookup "trace_id" = some (.str s) ∧ s ≠ "") ∧
    (∃ s, kvs.lookup "node_id" = some (.str s)) ∧
    (∃ s, kvs.lookup "event_type" = some (.str s) ∧ s ∈ VALID_EVENT_TYPES) ∧
    NumericOrBool (kvs.lookup "timestamp_ms") ∧
    NumericOrBool (kvs.lookup "logical_clock") ∧
    (∃ p, kvs.lookup "payload" = some (.obj p)) ∧
    (kvs.lookup "causal_ref" = some .null ∨ ∃ s, kvs.lookup "causal_ref" = some (.str s))

/-- The event-type set named by the spec's data model. -/
def CLAIMED_EVENT_TYPES : List String := ["START", "PROCESS", "END"]

/-- Well-formedness with the event-type set the SPEC names. -/
def ValidRecordClaim (log : Json) : Prop := WellFormedRecord CLAIMED_EVENT_TYPES log

/-- A raw record has no recoverable id: it is not a map, or its `log_id`
field is absent, of the wrong type, or empty. -/
def NoRecoverableId (log : Json) : Prop :=
  ∀ kvs, log = .obj kvs → ∀ s, kvs.lookup "log_id" = some (.str s) → s = ""

/-- A trace-local causal edge: both records belong to the trace and `b`'s
`causal_ref` equals `a`'s id. -/
def localEdge (trace_logs : List LogRecord) (a b : LogRecord) : Prop :=
  a ∈ trace_logs ∧ b ∈ trace_logs ∧ b.causal_ref = some a.log_id

/-- The trace-local causal-precedence relation: a nonempty directed path
of trace-local causal edges. -/
def causallyBefore (trace_logs : List LogRecord) (a b : LogRecord) : Prop :=
  Relation.TransGen (localEdge trace_logs) a b

/-- The skew count as a closed formula over the pipeline: per complete
trace, the number of emitted records whose `causal_ref` resolves in the
GLOBAL index (possibly to a record of another trace) with an inverted
timestamp. -/
def global_skew_count (raw_logs : List Json) : Nat :=
  ((run_sorted_traces raw_logs).map fun p =>
    (p.2.filter (skew_test (run_log_index raw_logs))).length).sum

/-- Modelled from the spec's words for claim C3: the skew count counted
only over edges used for ordering, i.e. whose `causal_ref` resolves to a
record WITHIN THE SAME trace. -/
def local_skew_test (p : String × List LogRecord) (log : LogRecord) : Bool :=
  match log.causal_ref with
  | some causal_ref =>
    match dictGet? (trace_dict p.2) causal_ref with
    | some parent_log => detect_clock_skew log parent_log
    | none => false
  | none => false

/-- Modelled from the spec's words for claim C3: the total count under
the trace-local reading. -/
def local_skew_count_claim (raw_logs : List Json) : Nat :=
  ((run_sorted_traces raw_logs).map fun p =>
    (p.2.filter (local_skew_test p)).length).sum

/-! ### Concrete sample data for witnesses and counterexamples -/

/-- Build a raw JSON record with the eight schema fields. -/
def jRec (id trace node et : String) (ts clk : Int) (ref : Json) : Json :=
  .obj [("log_id", .str id), ("trace_id", .str trace), ("node_id", .str node),
        ("event_type", .str et), ("timestamp_ms", .num ts), ("logical_clock", .num clk),
        ("payload", .obj []), ("causal_ref", ref)]

/-- A three-record chain trace: INIT ← PROCESS ← END. -/
def recA : LogRecord := ⟨"a", "t1", "n1", "INIT", 10, 1, [], none⟩

/-- Middle of the chain trace, causally after `recA`. -/
def recP : LogRecord := ⟨"p", "t1", "n1", "PROCESS", 20, 2, [], some "a"⟩

/-- End of the chain trace, causally after `recP`. -/
def recE : LogRecord := ⟨"e", "t1", "n1", "END", 30, 3, [], some "p"⟩

/-- A root END record with the largest sort key of its trace. -/
def recB : LogRecord := ⟨"b", "t1", "n1", "END", 50, 5, [], none⟩

/-- A record causally after `recA`, with a key between `recA`'s and `recB`'s. -/
def recC : LogRecord := ⟨"c", "t1", "n1", "PROCESS", 20, 2, [], some "a"⟩

/-- A two-record trace of causally-unrelated roots. -/
def recW1 : LogRecord := ⟨"w1", "tw", "n", "INIT", 10, 1, [], none⟩

/-- Second causally-unrelated root of the same trace. -/
def recW2 : LogRecord := ⟨"w2", "tw", "n", "END", 20, 2, [], none⟩

/-- Raw input: trace T1 is INIT←END; trace T2 is complete but its middle
record refers across traces to T1's END record with an earlier timestamp. -/
def rawSkew : List Json :=
  [jRec "i1" "T1" "n" "INIT" 100 1 .null,
   jRec "e1" "T1" "n" "END" 150 2 (.str "i1"),
   jRec "i2" "T2" "n" "INIT" 50 1 .null,
   jRec "x2" "T2" "n" "PROCESS" 60 2 (.str "e1"),
   jRec "e2" "T2" "n" "END" 70 3 (.str "x2")]

/-- Validated view of the first `rawSkew` record. -/
def vi1 : LogRecord := ⟨"i1", "T1", "n", "INIT", 100, 1, [], none⟩

/-- Validated view of the second `rawSkew` record. -/
def ve1 : LogRecord := ⟨"e1", "T1", "n", "END", 150, 2, [], some "i1"⟩

/-- Validated view of the third `rawSkew` record. -/
def vi2 : LogRecord := ⟨"i2", "T2", "n", "INIT", 50, 1, [], none⟩

/-- Validated view of the fourth `rawSkew` record. -/
def vx2 : LogRecord := ⟨"x2", "T2", "n", "PROCESS", 60, 2, [], some "e1"⟩

/-- Validated view of the fifth `rawSkew` record. -/
def ve2 : LogRecord := ⟨"e2", "T2", "n", "END", 70, 3, [], some "x2"⟩

/-- Raw input with one complete trace (T1) and one corrupted trace (T3,
missing its END marker). -/
def rawCorrupt : List Json :=
  [jRec "i1" "T1" "n" "INIT" 100 1 .null,
   jRec "e1" "T1" "n" "END" 150 2 (.str "i1"),
   jRec "b3" "T3" "n" "INIT" 10 1 .null]

/-- Validated view of the T3 record of `rawCorrupt`. -/
def vb3 : LogRecord := ⟨"b3", "T3", "n", "INIT", 10, 1, [], none⟩

/-- Raw input whose trace T4 contains an orphan: the PROCESS record's
`causal_ref` resolves nowhere. -/
def rawOrphan : List Json :=
  [jRec "i4" "T4" "n" "INIT" 10 1 .null,
   jRec "p4" "T4" "n" "PROCESS" 20 2 (.str "zz"),
   jRec "e4" "T4" "n" "END" 30 3 (.str "i4")]

/-- Validated view of the orphan record of `rawOrphan`. -/
def vp4 : LogRecord := ⟨"p4", "T4", "n", "PROCESS", 20, 2, [], some "zz"⟩

/-- A raw record that is valid in every respect, with event type INIT. -/
def jGood : Json := jRec "g" "tg" "n" "INIT" 1 1 .null

/-- A raw record that is valid in every respect except that its event
type is the spec-named "START" rather than the code's "INIT". -/
def jStart : Json := jRec "s1" "tg" "n" "START" 1 1 .null

/-- Field list of a raw record whose `timestamp_ms` is the JSON boolean
`true` — which Python's `isinstance(x, (int, float))` accepts. -/
def jBoolKvs : List (String × Json) :=
  [("log_id", .str "b1"), ("trace_id", .str "tg"), ("node_id", .str "n"),
   ("event_type", .str "INIT"), ("timestamp_ms", .bool true),
   ("logical_clock", .num 1), ("payload", .obj []), ("causal_ref", .null)]

/-- The record over `jBoolKvs`. -/
def jBool : Json := .obj jBoolKvs

example : topological_sort_trace [recA, recP, recE] (build_log_index [recA, recP, recE]) =
    [recA, recP, recE] := by rfl

example : topological_sort_trace [recA, recB, recC] (build_log_index [recA, recB, recC]) =
    [recA, recB, recC] := by rfl

example : (check_trace_completeness [recA, recB, recC] (build_log_index [recA, recB, recC])).1 = true := by rfl

example : valid_records rawSkew = [vi1, ve1, vi2, vx2, ve2] := by rfl

example : run_sorted_traces rawSkew = [("T1", [vi1, ve1]), ("T2", [vi2, vx2, ve2])] := by rfl

example : (process_logs rawSkew []).clock_skew_events_count = 1 := by rfl

example : local_skew_count_claim rawSkew = 0 := by rfl

example : (process_logs rawSkew []).sorted_timeline = [vi2, vx2, ve2, vi1, ve1] := by rfl

example : run_traces rawCorrupt = [("T1", [vi1, ve1]), ("T3", [vb3])] := by rfl

example : (process_logs rawCorrupt []).corrupted_traces = ["T3"] := by rfl

example : (validate_log jStart).1 = false ∧ (validate_log jStart).2 = some "s1" := by
  exact ⟨rfl, rfl⟩

example : (validate_log jGood).1 = true := by rfl

example : valid_records rawOrphan =
    [⟨"i4", "T4", "n", "INIT", 10, 1, [], none⟩, vp4,
     ⟨"e4", "T4", "n", "END", 30, 3, [], some "i4"⟩] := by rfl

example : dictGet? (run_log_index rawOrphan) "zz" = none := by rfl

example : malformed_ids [jStart] = ["s1"] := by rfl

example : (validate_log jBool).1 = true := by rfl

example : valid_records [jBool] = [⟨"b1", "tg", "n", "INIT", 1, 1, [], none⟩] := by rfl

/-! ### Basic lemmas about the dictionary model -/

theorem dictGet?_mem {α : Type} :
    ∀ (d : List (String × α)) (k : String) (v : α), dictGet? d k = some v → (k, v) ∈ d := by
  intro d
  induction d with
  | nil => intro k v h; simp [dictGet?] at h
  | cons p rest ih =>
    intro k v h
    unfold dictGet? at h
    cases hr : dictGet? rest k with
    | some w =>
      rw [hr] at h
      exact List.mem_cons_of_mem _ (ih k v (hr.trans (by injection h with h; rw [h])))
    | none =>
      rw [hr] at h
      by_cases hk : p.1 = k
      · simp only [hk, if_pos rfl] at h
        injection h with h
        have : p = (k, v) := by
          cases p
          simp_all
        rw [this]
        exact List.mem_cons_self _ _
      · simp [hk] at h

theorem trace_dict_mem (trace_logs : List LogRecord) (k : String) (v : LogRecord)
    (h : dictGet? (trace_dict trace_logs) k = some v) : v ∈ trace_logs ∧ v.log_id = k := by
  have hm := dictGet?_mem _ _ _ h
  simp only [trace_dict, List.mem_map] at hm
  obtain ⟨l, hl, he⟩ := hm
  have h1 : l.log_id = k := congrArg Prod.fst he
  have h2 : l = v := congrArg Prod.snd he
  exact ⟨h2 ▸ hl, h2 ▸ h1⟩

theorem log_id_inj {trace_logs : List LogRecord}
    (hN : (trace_logs.map fun l => l.log_id).Nodup) {a b : LogRecord}
    (ha : a ∈ trace_logs) (hb : b ∈ trace_logs) (h : a.log_id = b.log_id) : a = b :=
  List.inj_on_of_nodup_map hN ha hb h

/-! ### Lemmas about the Kahn loop -/

theorem processChildren_mem (ldict : List (String × LogRecord)) :
    ∀ (children : List String) (acc : (String → Int) × List LogRecord) (x : LogRecord),
      x ∈ (processChildren ldict acc children).2 →
      x ∈ acc.2 ∨ ∃ k ∈ children, dictGet? ldict k = some x := by
  intro children
  induction children with
  | nil => intro acc x hx; exact Or.inl hx
  | cons c cs ih =>
    intro acc x hx
    unfold processChildren at hx
    by_cases h0 :
        (fun y => if y = c then acc.1 y - 1 else acc.1 y) c = 0
    · rw [if_pos h0] at hx
      cases hd : dictGet? ldict c with
      | some r =>
        rw [hd] at hx
        rcases ih _ x hx with hmem | ⟨k, hk, hkv⟩
        · rcases List.mem_append.mp hmem with h1 | h2
          · exact Or.inl h1
          · right
            refine ⟨c, List.mem_cons_self _ _, ?_⟩
            rw [hd]
            congr 1
            have := h2
            simp at this
            rw [this]
        · exact Or.inr ⟨k, List.mem_cons_of_mem _ hk, hkv⟩
      | none =>
        rw [hd] at hx
        rcases ih _ x hx with hmem | ⟨k, hk, hkv⟩
        · exact Or.inl hmem
        · exact Or.inr ⟨k, List.mem_cons_of_mem _ hk, hkv⟩
    · rw [if_neg h0] at hx
      rcases ih _ x hx with hmem | ⟨k, hk, hkv⟩
      · exact Or.inl hmem
      · exact Or.inr ⟨k, List.mem_cons_of_mem _ hk, hkv⟩

theorem kahn_mem (ldict : List (String × LogRecord)) (graph : String → List String) :
    ∀ (fuel : Nat) (q : List LogRecord) (d : String → Int) (x : LogRecord),
      x ∈ kahnLoop ldict graph fuel q d →
      x ∈ q ∨ ∃ k, dictGet? ldict k = some x := by
  intro fuel
  induction fuel with
  | zero => intro q d x h; simp [kahnLoop] at h
  | succ n ih =>
    intro q d x h
    cases q with
    | nil => simp [kahnLoop] at h
    | cons current queue =>
      rw [show kahnLoop ldict graph (n + 1) (current :: queue) d =
        current :: kahnLoop ldict graph n
          (queue ++ List.insertionSort rKey
            (processChildren ldict (d, []) (graph current.log_id)).2)
          (processChildren ldict (d, []) (graph current.log_id)).1 from rfl] at h
      rcases List.mem_cons.mp h with rfl | h
      · exact Or.inl (List.mem_cons_self _ _)
      · rcases ih _ _ x h with hq | hk
        · rcases List.mem_append.mp hq with h1 | h2
          · exact Or.inl (List.mem_cons_of_mem _ h1)
          · have h3 : x ∈ (processChildren ldict (d, []) (graph current.log_id)).2 :=
              (List.mem_insertionSort rKey).mp h2
            rcases processChildren_mem ldict _ _ x h3 with h4 | ⟨k, _, hkv⟩
            · simp at h4
            · exact Or.inr ⟨k, hkv⟩
        · exact Or.inr hk

theorem topological_sort_trace_subset (trace_logs : List LogRecord)
    (log_index : List (String × LogRecord)) (x : LogRecord)
    (h : x ∈ topological_sort_trace trace_logs log_index) : x ∈ trace_logs := by
  unfold topological_sort_trace at h
  rcases kahn_mem _ _ _ _ _ x h with hq | ⟨k, hk⟩
  · have := (List.mem_insertionSort rKey).mp hq
    exact (List.mem_filter.mp this).1
  · exact (trace_dict_mem _ _ _ hk).1

theorem graph_children_mem (trace_logs : List LogRecord) (ids : List String)
    (c k : String) (h : k ∈ graph_children trace_logs ids c) :
    ∃ log ∈ trace_logs, log.log_id = k ∧ log.causal_ref = some c := by
  simp only [graph_children, List.mem_map, List.mem_filter] at h
  obtain ⟨log, ⟨hlt, hp⟩, hk⟩ := h
  simp only [Bool.and_eq_true, decide_eq_true_eq] at hp
  exact ⟨log, hlt, hk, hp.1⟩

/-- Records joining a `next_batch` are trace records whose `causal_ref`
is exactly the id of the record just emitted. -/
theorem batch_causal_ref (trace_logs : List LogRecord)
    (hN : (trace_logs.map fun l => l.log_id).Nodup) (c : String)
    (d : String → Int) (B : LogRecord)
    (hB : B ∈ (processChildren (trace_dict trace_logs) (d, [])
      (graph_children trace_logs (trace_logs.map fun l => l.log_id) c)).2) :
    B ∈ trace_logs ∧ B.causal_ref = some c := by
  rcases processChildren_mem _ _ _ _ hB with h | ⟨k, hk, hkv⟩
  · simp at h
  · obtain ⟨hBt, hBid⟩ := trace_dict_mem _ _ _ hkv
    obtain ⟨log, hlt, hlid, hlref⟩ := graph_children_mem _ _ _ _ hk
    have : log = B := log_id_inj hN hlt hBt (hlid.trans hBid.symm)
    exact ⟨hBt, this ▸ hlref⟩

/-- The central invariant behind topological validity: a record whose
`causal_ref` points at `A` (inside the trace) can enter the queue only in
the batch released by emitting `A`, so every occurrence of it in the
output is preceded by an occurrence of `A`. -/
theorem kahn_edge_before (trace_logs : List LogRecord) (A B : LogRecord)
    (hN : (trace_logs.map fun l => l.log_id).Nodup)
    (hA : A ∈ trace_logs) (hEdge : B.causal_ref = some A.log_id) :
    ∀ (fuel : Nat) (q : List LogRecord) (d : String → Int),
      (∀ x ∈ q, x ∈ trace_logs) → B ∉ q →
      ∀ j, (kahnLoop (trace_dict trace_logs)
              (graph_children trace_logs (trace_logs.map fun l => l.log_id))
              fuel q d).get? j = some B →
      ∃ i, i < j ∧ (kahnLoop (trace_dict trace_logs)
              (graph_children trace_logs (trace_logs.map fun l => l.log_id))
              fuel q d).get? i = some A := by
  intro fuel
  induction fuel with
  | zero => intro q d _ _ j hj; simp [kahnLoop] at hj
  | succ n ih =>
    intro q d hq hB j hj
    cases q with
    | nil => simp [kahnLoop] at hj
    | cons current queue =>
      rw [show kahnLoop (trace_dict trace_logs)
            (graph_children trace_logs (trace_logs.map fun l => l.log_id))
            (n + 1) (current :: queue) d =
          current :: kahnLoop (trace_dict trace_logs)
            (graph_children trace_logs (trace_logs.map fun l => l.log_id)) n
            (queue ++ List.insertionSort rKey
              (processChildren (trace_dict trace_logs) (d, [])
                (graph_children trace_logs (trace_logs.map fun l => l.log_id)
                  current.log_id)).2)
            (processChildren (trace_dict trace_logs) (d, [])
              (graph_children trace_logs (trace_logs.map fun l => l.log_id)
                current.log_id)).1 from rfl]
      rw [show kahnLoop (trace_dict trace_logs)
            (graph_children trace_logs (trace_logs.map fun l => l.log_id))
            (n + 1) (current :: queue) d =
          current :: kahnLoop (trace_dict trace_logs)
            (graph_children trace_logs (trace_logs.map fun l => l.log_id)) n
            (queue ++ List.insertionSort rKey
              (processChildren (trace_dict trace_logs) (d, [])
                (graph_children trace_logs (trace_logs.map fun l => l.log_id)
                  current.log_id)).2)
            (processChildren (trace_dict trace_logs) (d, [])
              (graph_children trace_logs (trace_logs.map fun l => l.log_id)
                current.log_id)).1 from rfl] at hj
      by_cases hca : current = A
      · cases j with
        | zero =>
          simp only [List.get?_cons_zero, Option.some.injEq] at hj
          exact absurd (hj ▸ List.mem_cons_self current queue) hB
        | succ j' =>
          exact ⟨0, Nat.succ_pos _, by rw [hca]; rfl⟩
      · cases j with
        | zero =>
          simp only [List.get?_cons_zero, Option.some.injEq] at hj
          exact absurd (hj ▸ List.mem_cons_self current queue) hB
        | succ j' =>
          rw [List.get?_cons_succ] at hj
          have hq' : ∀ x ∈ queue ++ List.insertionSort rKey
              (processChildren (trace_dict trace_logs) (d, [])
                (graph_children trace_logs (trace_logs.map fun l => l.log_id)
                  current.log_id)).2, x ∈ trace_logs := by
            intro x hx
            rcases List.mem_append.mp hx with h1 | h2
            · exact hq x (List.mem_cons_of_mem _ h1)
            · exact (batch_causal_ref trace_logs hN current.log_id d x
                ((List.mem_insertionSort rKey).mp h2)).1
          have hB' : B ∉ queue ++ List.insertionSort rKey
              (processChildren (trace_dict trace_logs) (d, [])
                (graph_children trace_logs (trace_logs.map fun l => l.log_id)
                  current.log_id)).2 := by
            intro hmem
            rcases List.mem_append.mp hmem with h1 | h2
            · exact hB (List.mem_cons_of_mem _ h1)
            · have hbc := (batch_causal_ref trace_logs hN current.log_id d B
                ((List.mem_insertionSort rKey).mp h2)).2
              rw [hEdge] at hbc
              injection hbc with hbc
              exact hca (log_id_inj hN (hq current (List.mem_cons_self _ _)) hA hbc.symm)
          obtain ⟨i, hi, hgi⟩ := ih _ _ hq' hB' j' hj
          exact ⟨i + 1, Nat.succ_lt_succ hi, by rw [List.get?_cons_succ]; exact hgi⟩

theorem dictGet?_isSome_of_mem {α : Type} :
    ∀ (d : List (String × α)) (k : String), k ∈ d.map Prod.fst →
      (dictGet? d k).isSome = true := by
  intro d
  induction d with
  | nil => intro k h; simp at h
  | cons p rest ih =>
    intro k h
    unfold dictGet?
    cases hr : dictGet? rest k with
    | some w => rfl
    | none =>
      rw [List.map_cons] at h
      rcases List.mem_cons.mp h with h1 | h1
      · rw [if_pos h1.symm]
        rfl
      · have hs := ih k h1
        rw [hr] at hs
        exact absurd hs (by simp)

/-- Under distinct ids, the trace dictionary resolves a member's id to
that very record. -/
theorem trace_dict_get (trace_logs : List LogRecord)
    (hN : (trace_logs.map fun l => l.log_id).Nodup) {X : LogRecord}
    (hX : X ∈ trace_logs) :
    dictGet? (trace_dict trace_logs) X.log_id = some X := by
  have hk : X.log_id ∈ (trace_dict trace_logs).map Prod.fst := by
    unfold trace_dict
    rw [List.map_map]
    exact List.mem_map_of_mem _ hX
  have hs := dictGet?_isSome_of_mem _ _ hk
  cases hv : dictGet? (trace_dict trace_logs) X.log_id with
  | none => rw [hv] at hs; exact absurd hs (by simp)
  | some v =>
    obtain ⟨hvt, hvid⟩ := trace_dict_mem _ _ _ hv
    rw [log_id_inj hN hvt hX hvid]

theorem processChildren_acc_mono (ldict : List (String × LogRecord)) :
    ∀ (children : List String) (acc : (String → Int) × List LogRecord)
      (x : LogRecord), x ∈ acc.2 → x ∈ (processChildren ldict acc children).2 := by
  intro children
  induction children with
  | nil => intro acc x hx; exact hx
  | cons c cs ih =>
    intro acc x hx
    unfold processChildren
    by_cases h0 : (fun y => if y = c then acc.1 y - 1 else acc.1 y) c = 0
    · rw [if_pos h0]
      cases hd : dictGet? ldict c with
      | some r => exact ih _ x (List.mem_append_left _ hx)
      | none => exact ih _ x hx
    · rw [if_neg h0]
      exact ih _ x hx

/-- A child id still carrying in-degree one is collected into the batch
when its parent's children are processed. -/
theorem processChildren_collects (ldict : List (String × LogRecord)) :
    ∀ (children : List String), children.Nodup →
    ∀ (acc : (String → Int) × List LogRecord) (k : String) (R : LogRecord),
      k ∈ children → acc.1 k = 1 → dictGet? ldict k = some R →
      R ∈ (processChildren ldict acc children).2 := by
  intro children
  induction children with
  | nil => intro _ acc k R hk; simp at hk
  | cons c cs ih =>
    intro hnd acc k R hk h1 hR
    unfold processChildren
    rcases List.mem_cons.mp hk with rfl | hk2
    · have h0 : (fun y => if y = k then acc.1 y - 1 else acc.1 y) k = 0 := by
        simp [h1]
      rw [if_pos h0, hR]
      exact processChildren_acc_mono ldict cs _ R
        (List.mem_append_right _ (List.mem_cons_self _ _))
    · have hkc : k ≠ c := by
        intro he
        rw [List.nodup_cons] at hnd
        exact hnd.1 (he ▸ hk2)
      by_cases h0 : (fun y => if y = c then acc.1 y - 1 else acc.1 y) c = 0
      · rw [if_pos h0]
        cases hd : dictGet? ldict c with
        | some r =>
          exact ih (List.nodup_cons.mp hnd).2 _ k R hk2 (by simpa [hkc] using h1) hR
        | none =>
          exact ih (List.nodup_cons.mp hnd).2 _ k R hk2 (by simpa [hkc] using h1) hR
      · rw [if_neg h0]
        exact ih (List.nodup_cons.mp hnd).2 _ k R hk2 (by simpa [hkc] using h1) hR

/-- Processing a batch leaves untouched the in-degree of every id that is
not among the processed children. -/
theorem processChildren_degree (ldict : List (String × LogRecord)) :
    ∀ (children : List String) (acc : (String → Int) × List LogRecord)
      (k : String), k ∉ children →
      (processChildren ldict acc children).1 k = acc.1 k := by
  intro children
  induction children with
  | nil => intro acc k _; rfl
  | cons c cs ih =>
    intro acc k hk
    have hkc : k ≠ c := fun he => hk (he ▸ List.mem_cons_self _ _)
    have hkcs : k ∉ cs := fun hm => hk (List.mem_cons_of_mem _ hm)
    unfold processChildren
    by_cases h0 : (fun y => if y = c then acc.1 y - 1 else acc.1 y) c = 0
    · rw [if_pos h0]
      cases hd : dictGet? ldict c with
      | some r => rw [ih _ k hkcs]; simp [hkc]
      | none => rw [ih _ k hkcs]; simp [hkc]
    · rw [if_neg h0]
      rw [ih _ k hkcs]
      simp [hkc]

theorem graph_children_nodup (trace_logs : List LogRecord)
    (hN : (trace_logs.map fun l => l.log_id).Nodup) (ids : List String) (c : String) :
    (graph_children trace_logs ids c).Nodup := by
  unfold graph_children
  exact List.Nodup.sublist (List.Sublist.map _ (List.filter_sublist _)) hN

theorem mem_graph_children (trace_logs : List LogRecord) {P X : LogRecord}
    (hP : P ∈ trace_logs) (hX : X ∈ trace_logs)
    (hXe : X.causal_ref = some P.log_id) :
    X.log_id ∈ graph_children trace_logs (trace_logs.map fun l => l.log_id) P.log_id := by
  refine List.mem_map.mpr ⟨X, List.mem_filter.mpr ⟨hX, ?_⟩, rfl⟩
  simp only [has_local_ref, hXe, Bool.and_eq_true, decide_eq_true_eq]
  exact ⟨trivial, List.mem_map_of_mem _ hP⟩

/-- Records already in the queue are emitted in their queue order: every
occurrence of `Y` in the output is preceded by an occurrence of `X`
whenever `X` sits in the queue with no `Y` before it. -/
theorem kahn_queue_order (ldict : List (String × LogRecord))
    (graph : String → List String) (X Y : LogRecord) (hXY : X ≠ Y) :
    ∀ (fuel : Nat) (qa qb : List LogRecord) (d : String → Int),
      Y ∉ qa →
      ∀ j, (kahnLoop ldict graph fuel (qa ++ X :: qb) d).get? j = some Y →
      ∃ i, i < j ∧ (kahnLoop ldict graph fuel (qa ++ X :: qb) d).get? i = some X := by
  intro fuel
  induction fuel with
  | zero => intro qa qb d _ j hj; simp [kahnLoop] at hj
  | succ n ih =>
    intro qa qb d hYa j hj
    cases qa with
    | nil =>
      rw [show ([] : List LogRecord) ++ X :: qb = X :: qb from rfl] at hj ⊢
      cases j with
      | zero =>
        rw [show kahnLoop ldict graph (n + 1) (X :: qb) d =
            X :: kahnLoop ldict graph n
              (qb ++ List.insertionSort rKey
                (processChildren ldict (d, []) (graph X.log_id)).2)
              (processChildren ldict (d, []) (graph X.log_id)).1 from rfl] at hj
        simp only [List.get?_cons_zero, Option.some.injEq] at hj
        exact absurd hj hXY
      | succ j' => exact ⟨0, Nat.succ_pos _, rfl⟩
    | cons c qa' =>
      rw [show (c :: qa') ++ X :: qb = c :: (qa' ++ X :: qb) from rfl] at hj ⊢
      rw [show kahnLoop ldict graph (n + 1) (c :: (qa' ++ X :: qb)) d =
          c :: kahnLoop ldict graph n
            ((qa' ++ X :: qb) ++ List.insertionSort rKey
              (processChildren ldict (d, []) (graph c.log_id)).2)
            (processChildren ldict (d, []) (graph c.log_id)).1 from rfl] at hj ⊢
      cases j with
      | zero =>
        simp only [List.get?_cons_zero, Option.some.injEq] at hj
        exact absurd (List.mem_cons_self c qa') (hj ▸ hYa)
      | succ j' =>
        rw [List.get?_cons_succ] at hj
        rw [List.append_assoc, List.cons_append] at hj
        have hYa' : Y ∉ qa' := fun hm => hYa (List.mem_cons_of_mem _ hm)
        obtain ⟨i, hi, hgi⟩ := ih qa' _ _ hYa' j' hj
        refine ⟨i + 1, Nat.succ_lt_succ hi, ?_⟩
        rw [List.get?_cons_succ, List.append_assoc, List.cons_append]
        exact hgi

/-- A record with a trace-locally resolving reference has positive
initial in-degree, so it is not in the initial queue. -/
theorem in_degree0_pos (trace_logs : List LogRecord)
    {A B : LogRecord} (hA : A ∈ trace_logs) (hB : B ∈ trace_logs)
    (hEdge : B.causal_ref = some A.log_id) :
    in_degree0 trace_logs (trace_logs.map fun l => l.log_id) B.log_id ≠ 0 := by
  intro h0
  have hBf : B ∈ trace_logs.filter fun log =>
      decide (log.log_id = B.log_id) &&
        has_local_ref (trace_logs.map fun l => l.log_id) log := by
    refine List.mem_filter.mpr ⟨hB, ?_⟩
    simp only [has_local_ref, hEdge, Bool.and_eq_true, decide_eq_true_eq]
    exact ⟨trivial, List.mem_map_of_mem _ hA⟩
  unfold in_degree0 at h0
  rw [Int.natCast_eq_zero, List.length_eq_zero] at h0
  rw [h0] at hBf
  simp at hBf

/-- A record with no trace-locally resolving reference has initial
in-degree zero. -/
theorem in_degree0_zero (trace_logs : List LogRecord)
    (hN : (trace_logs.map fun l => l.log_id).Nodup) {X : LogRecord}
    (hX : X ∈ trace_logs)
    (hXr : has_local_ref (trace_logs.map fun l => l.log_id) X = false) :
    in_degree0 trace_logs (trace_logs.map fun l => l.log_id) X.log_id = 0 := by
  unfold in_degree0
  rw [Int.natCast_eq_zero, List.length_eq_zero]
  rw [List.filter_eq_nil_iff]
  intro l hl hp
  simp only [Bool.and_eq_true, decide_eq_true_eq] at hp
  have : l = X := log_id_inj hN hl hX hp.1
  rw [this, hXr] at hp
  exact Bool.false_ne_true hp.2

/-- C1: for every complete trace, in the list returned by the topological
sorter, whenever a trace-local causal edge A→B exists (record B's
`causal_ref` equals record A's id and both records belong to the trace,
records being identified by their ids), record A appears strictly before
record B in the output order: every position holding B is preceded by a
position holding A. -/
theorem C1_topological_validity (trace_logs : List LogRecord)
    (log_index : List (String × LogRecord)) (A B : LogRecord)
    (hcomplete : (check_trace_completeness trace_logs log_index).1 = true)
    (hN : (trace_logs.map fun l => l.log_id).Nodup)
    (hA : A ∈ trace_logs) (hB : B ∈ trace_logs)
    (hEdge : B.causal_ref = some A.log_id) :
    ∀ j, (topological_sort_trace trace_logs log_index).get? j = some B →
      ∃ i, i < j ∧ (topological_sort_trace trace_logs log_index).get? i = some A := by
  intro j hj
  have hEq : topological_sort_trace trace_logs log_index =
      kahnLoop (trace_dict trace_logs)
        (graph_children trace_logs (trace_logs.map fun l => l.log_id))
        (2 * trace_logs.length + 1)
        (List.insertionSort rKey (trace_logs.filter fun log =>
          decide (in_degree0 trace_logs (trace_logs.map fun l => l.log_id) log.log_id = 0)))
        (fun k => in_degree0 trace_logs (trace_logs.map fun l => l.log_id) k) := rfl
  rw [hEq] at hj ⊢
  refine kahn_edge_before trace_logs A B hN hA hEdge _ _ _ ?_ ?_ j hj
  · intro x hx
    exact (List.mem_filter.mp ((List.mem_insertionSort rKey).mp hx)).1
  · intro hm
    have hp := (List.mem_filter.mp ((List.mem_insertionSort rKey).mp hm)).2
    rw [decide_eq_true_eq] at hp
    exact in_degree0_pos trace_logs hA hB hEdge hp

/-- Closed instance of C1 on the concrete chain trace INIT←PROCESS←END:
the END-side hypothesis places `recP` at position 1, and the edge
`recA`→`recP` forces `recA` strictly earlier. -/
theorem C1_topological_validity_witness :
    ∃ i, i < 1 ∧ (topological_sort_trace [recA, recP, recE]
      (build_log_index [recA, recP, recE])).get? i = some recA :=
  C1_topological_validity [recA, recP, recE] (build_log_index [recA, recP, recE])
    recA recP (by rfl) (by decide)
    (List.mem_cons_self _ _)
    (List.mem_cons_of_mem _ (List.mem_cons_self _ _))
    (by rfl) 1 (by rfl)

/-- `keyLt a b` forbids `keyLe b a`. -/
theorem keyLt_asymm {a b : LogRecord} (h : keyLt a b = true) : ¬ rKey b a := by
  unfold keyLt at h
  unfold rKey keyLe
  simp only [Bool.or_eq_true, Bool.and_eq_true, decide_eq_true_eq] at h ⊢
  omega

/-- `keyLt` is irreflexive, so its arguments are distinct records. -/
theorem keyLt_ne {a b : LogRecord} (h : keyLt a b = true) : a ≠ b := by
  intro he
  rw [he] at h
  unfold keyLt at h
  simp only [Bool.or_eq_true, Bool.and_eq_true, decide_eq_true_eq] at h
  omega

/-- Split a pairwise-ordered list at an element `a`, with no occurrence
of `b` before the split whenever `b` is not below `a`. -/
theorem pairwise_split_first {α : Type} {r : α → α → Prop} (b : α) :
    ∀ (l : List α) (a : α), l.Pairwise r → a ∈ l → ¬ r b a →
    ∃ u v, l = u ++ a :: v ∧ b ∉ u := by
  intro l
  induction l with
  | nil => intro a _ ha _; simp at ha
  | cons h t ih =>
    intro a hp ha hr
    by_cases hha : h = a
    · exact ⟨[], t, by rw [hha]; rfl, by simp⟩
    · have hat : a ∈ t := by
        rcases List.mem_cons.mp ha with h1 | h1
        · exact absurd h1.symm hha
        · exact h1
      obtain ⟨u, v, heq, hbu⟩ := ih a (List.Pairwise.of_cons hp) hat hr
      refine ⟨h :: u, v, by rw [heq]; rfl, ?_⟩
      intro hbm
      rcases List.mem_cons.mp hbm with h1 | h1
      · refine hr ?_
        rw [h1]
        exact (List.pairwise_cons.mp hp).1 a hat
      · exact hbu h1

/-- A record with distinct ids whose reference resolves inside the trace
has initial in-degree exactly one. -/
theorem in_degree0_one (trace_logs : List LogRecord)
    (hN : (trace_logs.map fun l => l.log_id).Nodup) {X : LogRecord}
    (hX : X ∈ trace_logs)
    (hXr : has_local_ref (trace_logs.map fun l => l.log_id) X = true) :
    in_degree0 trace_logs (trace_logs.map fun l => l.log_id) X.log_id = 1 := by
  have hmem : X ∈ trace_logs.filter fun log =>
      decide (log.log_id = X.log_id) &&
        has_local_ref (trace_logs.map fun l => l.log_id) log := by
    refine List.mem_filter.mpr ⟨hX, ?_⟩
    simp [hXr]
  have hall : ∀ l ∈ trace_logs.filter fun log =>
      decide (log.log_id = X.log_id) &&
        has_local_ref (trace_logs.map fun l => l.log_id) log, l = X := by
    intro l hl
    obtain ⟨hlt, hp⟩ := List.mem_filter.mp hl
    simp only [Bool.and_eq_true, decide_eq_true_eq] at hp
    exact log_id_inj hN hlt hX hp.1
  have hnd : (trace_logs.filter fun log =>
      decide (log.log_id = X.log_id) &&
        has_local_ref (trace_logs.map fun l => l.log_id) log).Nodup :=
    List.Nodup.sublist (List.filter_sublist _) (List.Nodup.of_map _ hN)
  have hone : (trace_logs.filter fun log =>
      decide (log.log_id = X.log_id) &&
        has_local_ref (trace_logs.map fun l => l.log_id) log) = [X] := by
    cases hF : trace_logs.filter fun log =>
        decide (log.log_id = X.log_id) &&
          has_local_ref (trace_logs.map fun l => l.log_id) log with
    | nil => rw [hF] at hmem; simp at hmem
    | cons x rest =>
      rw [hF] at hall hnd
      have hx : x = X := hall x (List.mem_cons_self _ _)
      have hrest : rest = [] := by
        rcases rest with _ | ⟨y, rest'⟩
        · rfl
        · exfalso
          have hy : y = X := hall y (List.mem_cons_of_mem _ (List.mem_cons_self _ _))
          rw [List.nodup_cons] at hnd
          exact hnd.1 (by rw [hx, ← hy]; exact List.mem_cons_self _ _)
      rw [hx, hrest]
  unfold in_degree0
  rw [hone]
  rfl

/-- Two children of the same record are released together in one sorted
batch, so they are emitted in ascending key order. -/
theorem kahn_sibling_order (trace_logs : List LogRecord) (P X Y : LogRecord)
    (hN : (trace_logs.map fun l => l.log_id).Nodup)
    (hP : P ∈ trace_logs) (hX : X ∈ trace_logs) (hY : Y ∈ trace_logs)
    (hXe : X.causal_ref = some P.log_id) (hYe : Y.causal_ref = some P.log_id)
    (hkey : keyLt X Y = true) :
    ∀ (fuel : Nat) (q : List LogRecord) (d : String → Int),
      (∀ z ∈ q, z ∈ trace_logs) → X ∉ q → Y ∉ q →
      d X.log_id = 1 → d Y.log_id = 1 →
      ∀ j, (kahnLoop (trace_dict trace_logs)
              (graph_children trace_logs (trace_logs.map fun l => l.log_id))
              fuel q d).get? j = some Y →
      ∃ i, i < j ∧ (kahnLoop (trace_dict trace_logs)
              (graph_children trace_logs (trace_logs.map fun l => l.log_id))
              fuel q d).get? i = some X := by
  intro fuel
  induction fuel with
  | zero => intro q d _ _ _ _ _ j hj; simp [kahnLoop] at hj
  | succ n ih =>
    intro q d hq hXq hYq hdX hdY j hj
    cases q with
    | nil => simp [kahnLoop] at hj
    | cons current queue =>
      rw [show kahnLoop (trace_dict trace_logs)
            (graph_children trace_logs (trace_logs.map fun l => l.log_id))
            (n + 1) (current :: queue) d =
          current :: kahnLoop (trace_dict trace_logs)
            (graph_children trace_logs (trace_logs.map fun l => l.log_id)) n
            (queue ++ List.insertionSort rKey
              (processChildren (trace_dict trace_logs) (d, [])
                (graph_children trace_logs (trace_logs.map fun l => l.log_id)
                  current.log_id)).2)
            (processChildren (trace_dict trace_logs) (d, [])
              (graph_children trace_logs (trace_logs.map fun l => l.log_id)
                current.log_id)).1 from rfl] at hj ⊢
      cases j with
      | zero =>
        simp only [List.get?_cons_zero, Option.some.injEq] at hj
        exact absurd (hj ▸ List.mem_cons_self current queue) hYq
      | succ j' =>
        rw [List.get?_cons_succ] at hj
        by_cases hcp : current = P
        · subst hcp
          have hnd := graph_children_nodup trace_logs hN
            (trace_logs.map fun l => l.log_id) current.log_id
          have hXb : X ∈ (processChildren (trace_dict trace_logs) (d, [])
              (graph_children trace_logs (trace_logs.map fun l => l.log_id)
                current.log_id)).2 :=
            processChildren_collects _ _ hnd (d, []) X.log_id X
              (mem_graph_children trace_logs hP hX hXe) hdX
              (trace_dict_get trace_logs hN hX)
          have hsorted : (List.insertionSort rKey
              (processChildren (trace_dict trace_logs) (d, [])
                (graph_children trace_logs (trace_logs.map fun l => l.log_id)
                  current.log_id)).2).Pairwise rKey :=
            List.sorted_insertionSort rKey _
          have hXs : X ∈ List.insertionSort rKey
              (processChildren (trace_dict trace_logs) (d, [])
                (graph_children trace_logs (trace_logs.map fun l => l.log_id)
                  current.log_id)).2 :=
            (List.mem_insertionSort rKey).mpr hXb
          obtain ⟨u, v, hsplit, hYu⟩ :=
            pairwise_split_first Y _ X hsorted hXs (keyLt_asymm hkey)
          rw [hsplit, show queue ++ (u ++ X :: v) = (queue ++ u) ++ X :: v from
            (List.append_assoc queue u (X :: v)).symm] at hj
          have hYnotin : Y ∉ queue ++ u := by
            intro hm
            rcases List.mem_append.mp hm with h1 | h1
            · exact hYq (List.mem_cons_of_mem _ h1)
            · exact hYu h1
          obtain ⟨i, hi, hgi⟩ := kahn_queue_order _ _ X Y (keyLt_ne hkey) n
            (queue ++ u) v _ hYnotin j' hj
          refine ⟨i + 1, Nat.succ_lt_succ hi, ?_⟩
          rw [List.get?_cons_succ, hsplit, show queue ++ (u ++ X :: v) =
            (queue ++ u) ++ X :: v from (List.append_assoc queue u (X :: v)).symm]
          exact hgi
        · have hcur : current ∈ trace_logs := hq current (List.mem_cons_self _ _)
          have hbatchX : X ∉ (processChildren (trace_dict trace_logs) (d, [])
              (graph_children trace_logs (trace_logs.map fun l => l.log_id)
                current.log_id)).2 := by
            intro hm
            have hbc := (batch_causal_ref trace_logs hN current.log_id d X hm).2
            rw [hXe] at hbc
            injection hbc with hbc
            exact hcp (log_id_inj hN hcur hP hbc.symm)
          have hbatchY : Y ∉ (processChildren (trace_dict trace_logs) (d, [])
              (graph_children trace_logs (trace_logs.map fun l => l.log_id)
                current.log_id)).2 := by
            intro hm
            have hbc := (batch_causal_ref trace_logs hN current.log_id d Y hm).2
            rw [hYe] at hbc
            injection hbc with hbc
            exact hcp (log_id_inj hN hcur hP hbc.symm)
          have hq' : ∀ z ∈ queue ++ List.insertionSort rKey
              (processChildren (trace_dict trace_logs) (d, [])
                (graph_children trace_logs (trace_logs.map fun l => l.log_id)
                  current.log_id)).2, z ∈ trace_logs := by
            intro z hz
            rcases List.mem_append.mp hz with h1 | h1
            · exact hq z (List.mem_cons_of_mem _ h1)
            · exact (batch_causal_ref trace_logs hN current.log_id d z
                ((List.mem_insertionSort rKey).mp h1)).1
          have hX' : X ∉ queue ++ List.insertionSort rKey
              (processChildren (trace_dict trace_logs) (d, [])
                (graph_children trace_logs (trace_logs.map fun l => l.log_id)
                  current.log_id)).2 := by
            intro hm
            rcases List.mem_append.mp hm with h1 | h1
            · exact hXq (List.mem_cons_of_mem _ h1)
            · exact hbatchX ((List.mem_insertionSort rKey).mp h1)
          have hY' : Y ∉ queue ++ List.insertionSort rKey
              (processChildren (trace_dict trace_logs) (d, [])
                (graph_children trace_logs (trace_logs.map fun l => l.log_id)
                  current.log_id)).2 := by
            intro hm
            rcases List.mem_append.mp hm with h1 | h1
            · exact hYq (List.mem_cons_of_mem _ h1)
            · exact hbatchY ((List.mem_insertionSort rKey).mp h1)
          have hXnotch : X.log_id ∉ graph_children trace_logs
              (trace_logs.map fun l => l.log_id) current.log_id := by
            intro hm
            obtain ⟨log, hlt, hlid, hlref⟩ := graph_children_mem _ _ _ _ hm
            rw [log_id_inj hN hlt hX hlid] at hlref
            rw [hXe] at hlref
            injection hlref with hlref
            exact hcp (log_id_inj hN hcur hP hlref.symm)
          have hYnotch : Y.log_id ∉ graph_children trace_logs
              (trace_logs.map fun l => l.log_id) current.log_id := by
            intro hm
            obtain ⟨log, hlt, hlid, hlref⟩ := graph_children_mem _ _ _ _ hm
            rw [log_id_inj hN hlt hY hlid] at hlref
            rw [hYe] at hlref
            injection hlref with hlref
            exact hcp (log_id_inj hN hcur hP hlref.symm)
          have hdX' : (processChildren (trace_dict trace_logs) (d, [])
              (graph_children trace_logs (trace_logs.map fun l => l.log_id)
                current.log_id)).1 X.log_id = 1 := by
            rw [processChildren_degree _ _ _ _ hXnotch]
            exact hdX
          have hdY' : (processChildren (trace_dict trace_logs) (d, [])
              (graph_children trace_logs (trace_logs.map fun l => l.log_id)
                current.log_id)).1 Y.log_id = 1 := by
            rw [processChildren_degree _ _ _ _ hYnotch]
            exact hdY
          obtain ⟨i, hi, hgi⟩ := ih _ _ hq' hX' hY' hdX' hdY' j' hj
          exact ⟨i + 1, Nat.succ_lt_succ hi, by rw [List.get?_cons_succ]; exact hgi⟩

/-- C2 (amended): in a complete trace, causally-unordered records with
distinct `(logical_clock, timestamp_ms)` keys appear in ascending key
order whenever they become READY TOGETHER: (a) both have no trace-local
predecessor (the initial ready set), or (b) both are trace-local children
of the same record, released in one sorted batch.  In either case every
output position holding the larger-key record is preceded by one holding
the smaller-key record.  The original claim — ascending order for ALL
causally-unordered pairs, equivalently a ready queue sorted before each
emission — fails: see the counterexample. -/
theorem C2_tie_break_amended (trace_logs : List LogRecord)
    (log_index : List (String × LogRecord)) (X Y : LogRecord)
    (hcomplete : (check_trace_completeness trace_logs log_index).1 = true)
    (hN : (trace_logs.map fun l => l.log_id).Nodup)
    (hX : X ∈ trace_logs) (hY : Y ∈ trace_logs)
    (hkey : keyLt X Y = true) :
    ((has_local_ref (trace_logs.map fun l => l.log_id) X = false →
      has_local_ref (trace_logs.map fun l => l.log_id) Y = false →
      ∀ j, (topological_sort_trace trace_logs log_index).get? j = some Y →
        ∃ i, i < j ∧
          (topological_sort_trace trace_logs log_index).get? i = some X)) ∧
    (∀ P, P ∈ trace_logs → X.causal_ref = some P.log_id →
      Y.causal_ref = some P.log_id →
      ∀ j, (topological_sort_trace trace_logs log_index).get? j = some Y →
        ∃ i, i < j ∧
          (topological_sort_trace trace_logs log_index).get? i = some X) := by
  have hEq : topological_sort_trace trace_logs log_index =
      kahnLoop (trace_dict trace_logs)
        (graph_children trace_logs (trace_logs.map fun l => l.log_id))
        (2 * trace_logs.length + 1)
        (List.insertionSort rKey (trace_logs.filter fun log =>
          decide (in_degree0 trace_logs (trace_logs.map fun l => l.log_id) log.log_id = 0)))
        (fun k => in_degree0 trace_logs (trace_logs.map fun l => l.log_id) k) := rfl
  constructor
  · intro hXr hYr j hj
    rw [hEq] at hj ⊢
    have hd0 := in_degree0_zero trace_logs hN hX hXr
    have hXq : X ∈ trace_logs.filter fun log =>
        decide (in_degree0 trace_logs (trace_logs.map fun l => l.log_id) log.log_id = 0) :=
      List.mem_filter.mpr ⟨hX, by rw [decide_eq_true_eq]; exact hd0⟩
    have hXs : X ∈ List.insertionSort rKey (trace_logs.filter fun log =>
        decide (in_degree0 trace_logs (trace_logs.map fun l => l.log_id) log.log_id = 0)) :=
      (List.mem_insertionSort rKey).mpr hXq
    have hsorted : (List.insertionSort rKey (trace_logs.filter fun log =>
        decide (in_degree0 trace_logs (trace_logs.map fun l => l.log_id) log.log_id = 0))).Pairwise rKey :=
      List.sorted_insertionSort rKey _
    obtain ⟨u, v, hsplit, hYu⟩ := pairwise_split_first Y _ X hsorted hXs (keyLt_asymm hkey)
    rw [hsplit] at hj ⊢
    exact kahn_queue_order _ _ X Y (keyLt_ne hkey) _ u v _ hYu j hj
  · intro P hP hXe hYe j hj
    rw [hEq] at hj ⊢
    have hlocX : has_local_ref (trace_logs.map fun l => l.log_id) X = true := by
      simp only [has_local_ref, hXe, decide_eq_true_eq]
      exact List.mem_map_of_mem _ hP
    have hlocY : has_local_ref (trace_logs.map fun l => l.log_id) Y = true := by
      simp only [has_local_ref, hYe, decide_eq_true_eq]
      exact List.mem_map_of_mem _ hP
    have hnotin : ∀ Z : LogRecord, Z ∈ trace_logs → Z.causal_ref = some P.log_id →
        Z ∉ List.insertionSort rKey (trace_logs.filter fun log =>
          decide (in_degree0 trace_logs (trace_logs.map fun l => l.log_id) log.log_id = 0)) := by
      intro Z hZ hZe hm
      have hp := (List.mem_filter.mp ((List.mem_insertionSort rKey).mp hm)).2
      rw [decide_eq_true_eq] at hp
      exact in_degree0_pos trace_logs hP hZ hZe hp
    refine kahn_sibling_order trace_logs P X Y hN hP hX hY hXe hYe hkey _ _ _
      ?_ (hnotin X hX hXe) (hnotin Y hY hYe)
      (in_degree0_one trace_logs hN hX hlocX)
      (in_degree0_one trace_logs hN hY hlocY) j hj
    intro z hz
    exact (List.mem_filter.mp ((List.mem_insertionSort rKey).mp hz)).1

/-- Closed instance of C2's amended statement on a trace of two
unrelated roots: `recW2` sits at position 1, so `recW1` appears earlier. -/
theorem C2_tie_break_amended_witness :
    ∃ i, i < 1 ∧ (topological_sort_trace [recW1, recW2]
      (build_log_index [recW1, recW2])).get? i = some recW1 :=
  (C2_tie_break_amended [recW1, recW2] (build_log_index [recW1, recW2])
    recW1 recW2 (by rfl) (by decide)
    (List.mem_cons_self _ _)
    (List.mem_cons_of_mem _ (List.mem_cons_self _ _))
    (by rfl)).1 (by rfl) (by rfl) 1 (by rfl)

/-- A record with no in-edges (no record's id matches its `causal_ref`)
has no causal predecessors at all. -/
theorem no_causal_into (trace_logs : List LogRecord) (b : LogRecord)
    (hb : ∀ a ∈ trace_logs, b.causal_ref ≠ some a.log_id) :
    ∀ a, ¬ causallyBefore trace_logs a b := by
  intro a h
  cases h with
  | single h1 => exact hb _ h1.1 h1.2.2
  | tail _ h1 => exact hb _ h1.1 h1.2.2

/-- C2 is refuted on the code: in the complete trace `[recA, recB, recC]`
(ids are distinct), `recB` and `recC` are causally unordered and their
keys are distinct with `recC`'s key strictly below `recB`'s, yet the
sorter emits `recB` (position 1) before `recC` (position 2): the ready
queue is `[recB, recC]` at `recB`'s emission, not sorted by key, because
`recC` joined the queue only after `recA` was emitted. -/
theorem C2_tie_break_counterexample :
    (check_trace_completeness [recA, recB, recC] (build_log_index [recA, recB, recC])).1 = true ∧
    ([recA, recB, recC].map fun l => l.log_id).Nodup ∧
    ¬ causallyBefore [recA, recB, recC] recB recC ∧
    ¬ causallyBefore [recA, recB, recC] recC recB ∧
    keyLt recC recB = true ∧
    (topological_sort_trace [recA, recB, recC]
      (build_log_index [recA, recB, recC])).get? 1 = some recB ∧
    (topological_sort_trace [recA, recB, recC]
      (build_log_index [recA, recB, recC])).get? 2 = some recC := by
  refine ⟨rfl, by decide, ?_, ?_, rfl, rfl, rfl⟩
  · intro h
    cases h with
    | single h1 =>
      have he := h1.2.2
      simp [recC, recB] at he
    | tail hp h1 =>
      have hw := h1.1
      have he := h1.2.2
      simp only [List.mem_cons, List.not_mem_nil, or_false] at hw
      rcases hw with hw | hw | hw
      · rw [hw] at hp
        refine no_causal_into [recA, recB, recC] recA ?_ recB hp
        intro a _ hcontra
        simp [recA] at hcontra
      · rw [hw] at he
        simp [recC, recB] at he
      · rw [hw] at he
        simp [recC] at he
  · refine no_causal_into [recA, recB, recC] recB ?_ recC
    intro a _ hcontra
    simp [recB] at hcontra

/-! ### C3: the clock-skew count -/

theorem trace_skew_fold_eq (log_index : List (String × LogRecord)) :
    ∀ (l : List LogRecord) (acc : Nat),
      trace_skew_fold log_index acc l = acc + (l.filter (skew_test log_index)).length := by
  intro l
  induction l with
  | nil => intro acc; rfl
  | cons x xs ih =>
    intro acc
    show trace_skew_fold log_index (if skew_test log_index x then acc + 1 else acc) xs = _
    rw [ih, List.filter_cons]
    by_cases h : skew_test log_index x
    · rw [if_pos h, if_pos (by exact h), List.length_cons]
      omega
    · rw [if_neg h, if_neg (by exact h)]

theorem run_skew_foldl_eq (log_index : List (String × LogRecord)) :
    ∀ (L : List (String × List LogRecord)) (acc : Nat),
      L.foldl (fun a p => trace_skew_fold log_index a p.2) acc =
        acc + (L.map fun p => (p.2.filter (skew_test log_index)).length).sum := by
  intro L
  induction L with
  | nil => intro acc; simp
  | cons p ps ih =>
    intro acc
    rw [List.foldl_cons, ih, trace_skew_fold_eq]
    simp only [List.map_cons, List.sum_cons]
    omega

/-- C3 (amended): the clock-skew count equals the number of records of
the sorted complete traces whose `causal_ref` resolves in the GLOBAL
index — including references to records of OTHER traces, which are not
used for ordering — with the successor's `timestamp_ms` strictly below
the resolved predecessor's.  (The claim's trace-local reading fails: see
the counterexample.) -/
theorem C3_skew_count_amended (raw_logs : List Json)
    (system_config : List (String × Json)) :
    (process_logs raw_logs system_config).clock_skew_events_count =
      global_skew_count raw_logs := by
  show run_clock_skew_count raw_logs = global_skew_count raw_logs
  unfold run_clock_skew_count global_skew_count
  rw [run_skew_foldl_eq, Nat.zero_add]

/-- C3 is refuted on the code: in `rawSkew`, trace T2's middle record
refers across traces to T1's END record with an inverted timestamp.  The
reference is not used for ordering (it does not resolve within T2), yet
the pipeline counts it: the reported count is 1 while the trace-local
count demanded by the claim is 0. -/
theorem C3_skew_count_counterexample :
    (process_logs rawSkew []).clock_skew_events_count = 1 ∧
      local_skew_count_claim rawSkew = 0 :=
  ⟨rfl, rfl⟩

/-! ### C6: trace ordering in the merge -/

/-- C6: complete traces appear in `sorted_timeline` as contiguous blocks;
if two sorted complete traces have minimum timestamps `m1 < m2`, all
records of the first block appear before all records of the second. -/
theorem C6_trace_ordering (raw_logs : List Json) (system_config : List (String × Json))
    (t1 t2 : String) (s1 s2 : List LogRecord) (m1 m2 : Int)
    (h1 : (t1, s1) ∈ run_sorted_traces raw_logs)
    (h2 : (t2, s2) ∈ run_sorted_traces raw_logs)
    (hm1 : trace_min_ts (t1, s1) = some m1)
    (hm2 : trace_min_ts (t2, s2) = some m2)
    (hlt : m1 < m2) :
    ∃ pre mid post, (process_logs raw_logs system_config).sorted_timeline =
      pre ++ s1 ++ mid ++ s2 ++ post := by
  have hne : (t1, s1) ≠ (t2, s2) := by
    intro he
    rw [he, hm2] at hm1
    injection hm1 with hm1
    omega
  have hnr : ¬ rMerge (t2, s2) (t1, s1) := by
    unfold rMerge merge_le
    rw [hm1, hm2]
    simp only [decide_eq_true_eq]
    omega
  have hs : (run_merged raw_logs).Pairwise rMerge := List.sorted_insertionSort rMerge _
  have hmem1 : (t1, s1) ∈ run_merged raw_logs := by
    unfold run_merged
    rw [List.mem_insertionSort]
    exact h1
  have hmem2 : (t2, s2) ∈ run_merged raw_logs := by
    unfold run_merged
    rw [List.mem_insertionSort]
    exact h2
  obtain ⟨u, v, hsplit, hnu⟩ := pairwise_split_first (t2, s2) _ (t1, s1) hs hmem1 hnr
  have hv : (t2, s2) ∈ v := by
    rw [hsplit] at hmem2
    rcases List.mem_append.mp hmem2 with h | h
    · exact absurd h hnu
    · rcases List.mem_cons.mp h with h | h
      · exact absurd h.symm hne
      · exact h
  obtain ⟨v1, v2, hv12⟩ := List.append_of_mem hv
  refine ⟨(u.map Prod.snd).flatten, (v1.map Prod.snd).flatten, (v2.map Prod.snd).flatten, ?_⟩
  show ((run_merged raw_logs).map Prod.snd).flatten = _
  rw [hsplit, hv12]
  simp [List.append_assoc]

/-- Closed instance of C6 on `rawSkew`: trace T2 (minimum timestamp 50)
appears entirely before trace T1 (minimum timestamp 100). -/
theorem C6_trace_ordering_witness :
    ∃ pre mid post, (process_logs rawSkew []).sorted_timeline =
      pre ++ [vi2, vx2, ve2] ++ mid ++ [vi1, ve1] ++ post :=
  C6_trace_ordering rawSkew [] "T2" "T1" [vi2, vx2, ve2] [vi1, ve1] 50 100
    (List.mem_cons_of_mem _ (List.mem_cons_self _ _))
    (List.mem_cons_self _ _)
    (by rfl) (by rfl) (by omega)

/-! ### The trace grouping: characterization lemmas -/

theorem addToGroup_groupGet? :
    ∀ (acc : List (String × List LogRecord)) (t0 : String) (log : LogRecord) (t : String),
      groupGet? (addToGroup acc t0 log) t =
        if t = t0 then some (((groupGet? acc t).getD []) ++ [log])
        else groupGet? acc t := by
  intro acc
  induction acc with
  | nil =>
    intro t0 log t
    by_cases h : t = t0
    · subst h
      simp [addToGroup, groupGet?]
    · simp only [addToGroup, groupGet?, if_neg h]
      rw [if_neg (fun he : t0 = t => h he.symm)]
  | cons p rest ih =>
    intro t0 log t
    obtain ⟨k, ls⟩ := p
    unfold addToGroup
    by_cases hk : k = t0
    · subst hk
      rw [if_pos rfl]
      by_cases ht : t = k
      · subst ht
        simp [groupGet?]
      · simp only [groupGet?]
        rw [if_neg (fun he : k = t => ht he.symm), if_neg (fun he : k = t => ht he.symm),
          if_neg ht]
    · rw [if_neg hk]
      by_cases ht : t = k
      · have hne : ¬ t = t0 := fun he => hk (ht.symm.trans he)
        simp only [groupGet?]
        rw [if_pos ht.symm, if_pos ht.symm, if_neg hne]
      · simp only [groupGet?]
        rw [if_neg (fun he : k = t => ht he.symm), if_neg (fun he : k = t => ht he.symm)]
        exact ih t0 log t

theorem addToGroup_keys :
    ∀ (acc : List (String × List LogRecord)) (t0 : String) (log : LogRecord),
      (addToGroup acc t0 log).map Prod.fst =
        if t0 ∈ acc.map Prod.fst then acc.map Prod.fst
        else acc.map Prod.fst ++ [t0] := by
  intro acc
  induction acc with
  | nil => intro t0 log; simp [addToGroup]
  | cons p rest ih =>
    intro t0 log
    obtain ⟨k, ls⟩ := p
    unfold addToGroup
    by_cases hk : k = t0
    · subst hk
      rw [if_pos rfl]
      simp
    · rw [if_neg hk]
      simp only [List.map_cons, ih, List.mem_cons]
      by_cases hmem : t0 ∈ rest.map Prod.fst
      · rw [if_pos hmem, if_pos (Or.inr hmem)]
      · rw [if_neg hmem, if_neg ?_, List.cons_append]
        intro h
        rcases h with h | h
        · exact hk h.symm
        · exact hmem h

theorem addToGroup_keys_nodup (acc : List (String × List LogRecord)) (t0 : String)
    (log : LogRecord) (h : (acc.map Prod.fst).Nodup) :
    ((addToGroup acc t0 log).map Prod.fst).Nodup := by
  rw [addToGroup_keys]
  by_cases hmem : t0 ∈ acc.map Prod.fst
  · rw [if_pos hmem]; exact h
  · rw [if_neg hmem]
    rw [List.nodup_append]
    exact ⟨h, List.nodup_singleton _, by simpa using hmem⟩

theorem group_loop_inv :
    ∀ (rest : List LogRecord) (acc : List (String × List LogRecord))
      (processed : List LogRecord),
      (acc.map Prod.fst).Nodup →
      (∀ t, ((groupGet? acc t).getD []) =
        processed.filter fun l => decide (l.trace_id = t)) →
      ((rest.foldl (fun a log => addToGroup a log.trace_id log) acc).map Prod.fst).Nodup ∧
      ∀ t, ((groupGet? (rest.foldl (fun a log => addToGroup a log.trace_id log) acc) t).getD []) =
        (processed ++ rest).filter fun l => decide (l.trace_id = t) := by
  intro rest
  induction rest with
  | nil =>
    intro acc processed hN hInv
    simpa using ⟨hN, hInv⟩
  | cons log rest ih =>
    intro acc processed hN hInv
    rw [List.foldl_cons]
    have h1 := ih (addToGroup acc log.trace_id log) (processed ++ [log])
      (addToGroup_keys_nodup acc log.trace_id log hN) ?_
    · rcases h1 with ⟨ha, hb⟩
      refine ⟨ha, fun t => ?_⟩
      rw [hb t]
      rw [List.append_assoc, List.singleton_append]
    · intro t
      rw [addToGroup_groupGet?]
      by_cases ht : t = log.trace_id
      · rw [if_pos ht, List.filter_append]
        rw [hInv t]
        simp only [Option.getD_some]
        congr 1
        simp [ht.symm]
      · rw [if_neg ht, List.filter_append, hInv t]
        have : ([log].filter fun l => decide (l.trace_id = t)) = [] := by
          simp only [List.filter_cons, List.filter_nil]
          rw [if_neg ?_]
          simp only [decide_eq_true_eq]
          exact fun he => ht he.symm
        rw [this, List.append_nil]

theorem group_by_trace_keys_nodup (valid_logs : List LogRecord) :
    ((group_by_trace valid_logs).map Prod.fst).Nodup :=
  (group_loop_inv valid_logs [] [] (by simp) (fun t => rfl)).1

theorem group_by_trace_groupGet? (valid_logs : List LogRecord) (t : String) :
    ((groupGet? (group_by_trace valid_logs) t).getD []) =
      valid_logs.filter fun l => decide (l.trace_id = t) := by
  have := (group_loop_inv valid_logs [] [] (by simp) (fun t => rfl)).2 t
  simpa using this

theorem groupGet?_of_mem :
    ∀ (acc : List (String × List LogRecord)) (t : String) (v : List LogRecord),
      (acc.map Prod.fst).Nodup → (t, v) ∈ acc → groupGet? acc t = some v := by
  intro acc
  induction acc with
  | nil => intro t v _ h; simp at h
  | cons p rest ih =>
    intro t v hN hm
    obtain ⟨k, ls⟩ := p
    rcases List.mem_cons.mp hm with h | h
    · injection h with h1 h2
      show (if k = t then some ls else groupGet? rest t) = some v
      rw [if_pos h1.symm, h2]
    · show (if k = t then some ls else groupGet? rest t) = some v
      by_cases hk : k = t
      · subst hk
        have : k ∈ rest.map Prod.fst := List.mem_map_of_mem Prod.fst h
        rw [List.map_cons, List.nodup_cons] at hN
        exact absurd this hN.1
      · rw [if_neg hk]
        exact ih t v (by rw [List.map_cons, List.nodup_cons] at hN; exact hN.2) h

/-- Every group of `group_by_trace` is exactly the sublist of valid
records carrying its key as `trace_id`. -/
theorem mem_group_by_trace (valid_logs : List LogRecord) (t : String)
    (ls : List LogRecord) (h : (t, ls) ∈ group_by_trace valid_logs) :
    ls = valid_logs.filter fun l => decide (l.trace_id = t) := by
  have hl := groupGet?_of_mem _ t ls (group_by_trace_keys_nodup valid_logs) h
  have h2 := group_by_trace_groupGet? valid_logs t
  rw [hl] at h2
  simpa using h2

/-- Members of a group are valid records with the group's `trace_id`. -/
theorem mem_group_member (valid_logs : List LogRecord) (t : String)
    (ls : List LogRecord) (r : LogRecord) (h : (t, ls) ∈ group_by_trace valid_logs)
    (hr : r ∈ ls) : r ∈ valid_logs ∧ r.trace_id = t := by
  rw [mem_group_by_trace _ _ _ h] at hr
  have h2 := List.mem_filter.mp hr
  exact ⟨h2.1, by simpa using h2.2⟩

/-- Every record of `sorted_timeline` comes from a trace group that
passed the completeness check. -/
theorem timeline_mem (raw_logs : List Json) (r : LogRecord)
    (h : r ∈ run_sorted_timeline raw_logs) :
    ∃ t logs, (t, logs) ∈ run_traces raw_logs ∧
      (check_trace_completeness logs (run_log_index raw_logs)).1 = true ∧ r ∈ logs := by
  unfold run_sorted_timeline at h
  rw [List.mem_flatten] at h
  obtain ⟨l, hl, hrl⟩ := h
  rw [List.mem_map] at hl
  obtain ⟨p, hp, he⟩ := hl
  have hp' : p ∈ run_sorted_traces raw_logs := by
    unfold run_merged at hp
    exact (List.mem_insertionSort rMerge).mp hp
  unfold run_sorted_traces at hp'
  rw [List.mem_map] at hp'
  obtain ⟨q, hq, he2⟩ := hp'
  have hq2 := List.mem_filter.mp hq
  refine ⟨q.1, q.2, hq2.1, hq2.2, ?_⟩
  have hsnd : p.2 = topological_sort_trace q.2 (run_log_index raw_logs) := by
    rw [← he2]
  rw [← he, hsnd] at hrl
  exact topological_sort_trace_subset _ _ _ hrl

/-- C7: every trace failing the completeness check is listed in the
report's `corrupted_traces` (which is sorted), none of its records appear
in `sorted_timeline`, and no trace passing the check is listed. -/
theorem C7_corrupted_classification (raw_logs : List Json)
    (system_config : List (String × Json)) :
    List.Sorted strLe (process_logs raw_logs system_config).corrupted_traces ∧
    (∀ t ls, (t, ls) ∈ run_traces raw_logs →
      (check_trace_completeness ls (run_log_index raw_logs)).1 = false →
      t ∈ (process_logs raw_logs system_config).corrupted_traces ∧
        ∀ r ∈ ls, r ∉ (process_logs raw_logs system_config).sorted_timeline) ∧
    (∀ t ls, (t, ls) ∈ run_traces raw_logs →
      (check_trace_completeness ls (run_log_index raw_logs)).1 = true →
      t ∉ (process_logs raw_logs system_config).corrupted_traces) := by
  refine ⟨List.sorted_insertionSort strLe _, ?_, ?_⟩
  · intro t ls ht hf
    constructor
    · show t ∈ List.insertionSort strLe (run_corrupted_traces raw_logs)
      rw [List.mem_insertionSort]
      unfold run_corrupted_traces
      refine List.mem_map.mpr ⟨(t, ls), List.mem_filter.mpr ⟨ht, ?_⟩, rfl⟩
      show (! (check_trace_completeness ls (run_log_index raw_logs)).1) = true
      rw [hf]
      rfl
    · intro r hr hmem
      have hm : r ∈ run_sorted_timeline raw_logs := hmem
      obtain ⟨t2, logs2, ht2, hc2, hr2⟩ := timeline_mem _ _ hm
      have h1 := mem_group_member (valid_records raw_logs) t ls r ht hr
      have h2 := mem_group_member (valid_records raw_logs) t2 logs2 r ht2 hr2
      have hteq : t = t2 := h1.2.symm.trans h2.2
      subst hteq
      have hls : ls = logs2 :=
        (mem_group_by_trace _ _ _ ht).trans (mem_group_by_trace _ _ _ ht2).symm
      rw [← hls] at hc2
      rw [hf] at hc2
      exact Bool.false_ne_true hc2
  · intro t ls ht htrue hmem
    have hm : t ∈ run_corrupted_traces raw_logs := by
      have : t ∈ List.insertionSort strLe (run_corrupted_traces raw_logs) := hmem
      rwa [List.mem_insertionSort] at this
    unfold run_corrupted_traces at hm
    rw [List.mem_map] at hm
    obtain ⟨p, hpf, hp1⟩ := hm
    have hpf2 := List.mem_filter.mp hpf
    have hfalse : (check_trace_completeness p.2 (run_log_index raw_logs)).1 = false := by
      have := hpf2.2
      simp only [Bool.not_eq_true'] at this
      exact this
    have hsame : p.2 = ls := by
      have e1 := mem_group_by_trace (valid_records raw_logs) p.1 p.2
        (by simpa using hpf2.1)
      have e2 := mem_group_by_trace (valid_records raw_logs) t ls ht
      rw [e1, e2, hp1]
    rw [hsame, htrue] at hfalse
    exact Bool.noConfusion hfalse

/-- Closed instance of C7 on `rawCorrupt`: trace T3 (missing its END
marker) is reported corrupted and its single record is excluded from the
timeline. -/
theorem C7_corrupted_classification_witness :
    "T3" ∈ (process_logs rawCorrupt []).corrupted_traces ∧
      vb3 ∉ (process_logs rawCorrupt []).sorted_timeline := by
  have h := (C7_corrupted_classification rawCorrupt []).2.1 "T3" [vb3]
    (List.mem_cons_of_mem _ (List.mem_cons_self _ _)) (by rfl)
  exact ⟨h.1, h.2 vb3 (List.mem_cons_self _ _)⟩

/-- C10: a valid record whose `causal_ref` dangles (absent from the
global index) makes every group containing it fail the completeness
check, and the record never appears in `sorted_timeline`. -/
theorem C10_orphan_exclusion (raw_logs : List Json)
    (system_config : List (String × Json)) (r : LogRecord) (c : String)
    (hr : r ∈ valid_records raw_logs)
    (hc : r.causal_ref = some c)
    (hd : dictGet? (run_log_index raw_logs) c = none) :
    (∀ t ls, (t, ls) ∈ run_traces raw_logs → r ∈ ls →
      (check_trace_completeness ls (run_log_index raw_logs)).1 = false) ∧
    r ∉ (process_logs raw_logs system_config).sorted_timeline := by
  have hpart1 : ∀ t ls, (t, ls) ∈ run_traces raw_logs → r ∈ ls →
      (check_trace_completeness ls (run_log_index raw_logs)).1 = false := by
    intro t ls _ hrls
    have hany : ls.any (fun log =>
        match log.causal_ref with
        | some causal_ref => (dictGet? (run_log_index raw_logs) causal_ref).isNone
        | none => false) = true := by
      refine List.any_eq_true.mpr ⟨r, hrls, ?_⟩
      rw [hc]
      show (dictGet? (run_log_index raw_logs) c).isNone = true
      rw [hd]
      rfl
    simp only [check_trace_completeness]
    split_ifs with h1 h2 h3
    all_goals try rfl
    all_goals exact absurd hany h3
  refine ⟨hpart1, ?_⟩
  intro hmem
  have hm : r ∈ run_sorted_timeline raw_logs := hmem
  obtain ⟨t2, logs2, ht2, hc2, hr2⟩ := timeline_mem _ _ hm
  rw [hpart1 t2 logs2 ht2 hr2] at hc2
  exact Bool.false_ne_true hc2

/-- Closed instance of C10 on `rawOrphan`: the orphan record `vp4`
corrupts its trace and is excluded from the timeline. -/
theorem C10_orphan_exclusion_witness :
    (∀ t ls, (t, ls) ∈ run_traces rawOrphan → vp4 ∈ ls →
      (check_trace_completeness ls (run_log_index rawOrphan)).1 = false) ∧
    vp4 ∉ (process_logs rawOrphan []).sorted_timeline :=
  C10_orphan_exclusion rawOrphan [] vp4 "zz"
    (List.mem_cons_of_mem _ (List.mem_cons_self _ _)) (by rfl) (by rfl)

/-! ### C5: the completeness checker -/

/-- C5: the completeness checker evaluates its three conditions in order
and returns the first failing reason — `missing_init` iff no trace-open
(INIT) marker, else `missing_end` iff no END marker, else
`broken_causal_chain` iff some record's `causal_ref` is non-null and
absent from the GLOBAL index (so a reference resolving to a record of a
different trace is not a failure), else `(true, complete)`. -/
theorem C5_completeness_check (trace_logs : List LogRecord)
    (log_index : List (String × LogRecord)) :
    (check_trace_completeness trace_logs log_index = (false, "missing_init") ↔
      ¬ ∃ log ∈ trace_logs, log.event_type = "INIT") ∧
    (check_trace_completeness trace_logs log_index = (false, "missing_end") ↔
      (∃ log ∈ trace_logs, log.event_type = "INIT") ∧
        ¬ ∃ log ∈ trace_logs, log.event_type = "END") ∧
    (check_trace_completeness trace_logs log_index = (false, "broken_causal_chain") ↔
      (∃ log ∈ trace_logs, log.event_type = "INIT") ∧
        (∃ log ∈ trace_logs, log.event_type = "END") ∧
        ∃ log ∈ trace_logs, ∃ c, log.causal_ref = some c ∧
          dictGet? log_index c = none) ∧
    (check_trace_completeness trace_logs log_index = (true, "complete") ↔
      (∃ log ∈ trace_logs, log.event_type = "INIT") ∧
        (∃ log ∈ trace_logs, log.event_type = "END") ∧
        ¬ ∃ log ∈ trace_logs, ∃ c, log.causal_ref = some c ∧
          dictGet? log_index c = none) := by
  have hInit : (trace_logs.any fun log => decide (log.event_type = "INIT")) = true ↔
      ∃ log ∈ trace_logs, log.event_type = "INIT" := by
    simp [List.any_eq_true]
  have hEnd : (trace_logs.any fun log => decide (log.event_type = "END")) = true ↔
      ∃ log ∈ trace_logs, log.event_type = "END" := by
    simp [List.any_eq_true]
  have hDang : (trace_logs.any fun log =>
      match log.causal_ref with
      | some causal_ref => (dictGet? log_index causal_ref).isNone
      | none => false) = true ↔
      ∃ log ∈ trace_logs, ∃ c, log.causal_ref = some c ∧
        dictGet? log_index c = none := by
    rw [List.any_eq_true]
    constructor
    · rintro ⟨log, hl, hp⟩
      cases hcr : log.causal_ref with
      | none => rw [hcr] at hp; exact absurd hp (by simp)
      | some c =>
        rw [hcr] at hp
        exact ⟨log, hl, c, hcr, Option.isNone_iff_eq_none.mp hp⟩
    · rintro ⟨log, hl, c, hcr, hd⟩
      refine ⟨log, hl, ?_⟩
      rw [hcr]
      show (dictGet? log_index c).isNone = true
      rw [hd]
      rfl
  rw [← hInit, ← hEnd, ← hDang]
  unfold check_trace_completeness
  by_cases h1 : (trace_logs.any fun log => decide (log.event_type = "INIT")) = true
  · rw [if_neg (by rw [h1]; simp)]
    by_cases h2 : (trace_logs.any fun log => decide (log.event_type = "END")) = true
    · rw [if_neg (by rw [h2]; simp)]
      by_cases h3 : (trace_logs.any fun log =>
          match log.causal_ref with
          | some causal_ref => (dictGet? log_index causal_ref).isNone
          | none => false) = true
      · rw [if_pos h3]
        simp [Prod.ext_iff, h1, h2, h3]
      · rw [if_neg h3]
        simp [Prod.ext_iff, h1, h2, h3]
    · have h2' : (trace_logs.any fun log => decide (log.event_type = "END")) = false := by
        revert h2
        cases trace_logs.any fun log => decide (log.event_type = "END") <;> simp
      rw [if_pos (by rw [h2']; rfl)]
      simp [Prod.ext_iff, h1, h2]
  · have h1' : (trace_logs.any fun log => decide (log.event_type = "INIT")) = false := by
      revert h1
      cases trace_logs.any fun log => decide (log.event_type = "INIT") <;> simp
    rw [if_pos (by rw [h1']; rfl)]
    simp [Prod.ext_iff, h1]

/-- Closed instance of C5: a trace holding only an INIT record is
classified `missing_end` (the checker's second condition fires first). -/
theorem C5_completeness_check_witness :
    check_trace_completeness [recW1] [] = (false, "missing_end") := by
  refine (C5_completeness_check [recW1] []).2.1.mpr ⟨⟨recW1, List.mem_cons_self _ _, rfl⟩, ?_⟩
  rintro ⟨l, hl, he⟩
  rcases List.mem_cons.mp hl with h | h
  · rw [h] at he
    exact absurd he (by simp [recW1])
  · simp at h

/-! ### C4 and C8: the validator -/

theorem isNonEmptyStr_iff (o : Option Json) :
    isNonEmptyStr o = true ↔ ∃ s, o = some (.str s) ∧ s ≠ "" := by
  cases o with
  | none => simp [isNonEmptyStr]
  | some j => cases j <;> simp [isNonEmptyStr]

theorem isStr_iff (o : Option Json) :
    isStr o = true ↔ ∃ s, o = some (.str s) := by
  cases o with
  | none => simp [isStr]
  | some j => cases j <;> simp [isStr]

theorem isValidEventType_iff (o : Option Json) :
    isValidEventType o = true ↔ ∃ s, o = some (.str s) ∧ s ∈ VALID_EVENT_TYPES := by
  cases o with
  | none => simp [isValidEventType]
  | some j => cases j <;> simp [isValidEventType]

theorem isNum_iff (o : Option Json) :
    isNum o = true ↔ NumericOrBool o := by
  unfold NumericOrBool
  cases o with
  | none => simp [isNum]
  | some j => cases j <;> simp [isNum]

theorem isObjOpt_iff (o : Option Json) :
    isObjOpt o = true ↔ ∃ p, o = some (.obj p) := by
  cases o with
  | none => simp [isObjOpt]
  | some j => cases j <;> simp [isObjOpt]

theorem isNullOrStr_iff (o : Option Json) :
    isNullOrStr o = true ↔ o = none ∨ o = some .null ∨ ∃ s, o = some (.str s) := by
  cases o with
  | none => simp [isNullOrStr]
  | some j => cases j <;> simp [isNullOrStr]

theorem validate_log_no_id (kvs : List (String × Json))
    (h : ∀ s, kvs.lookup "log_id" ≠ some (.str s)) :
    validate_log (.obj kvs) = (false, none) := by
  simp only [validate_log]

theorem validate_log_empty_id (kvs : List (String × Json))
    (h1 : kvs.lookup "log_id" = some (.str "")) :
    validate_log (.obj kvs) = (false, none) := by
  simp only [validate_log]
  rw [h1]
  rfl

theorem validate_log_with_id (kvs : List (String × Json)) (log_id : String)
    (h1 : kvs.lookup "log_id" = some (.str log_id)) (hne : log_id ≠ "") :
    (validate_log (.obj kvs)).2 = some log_id := by
  simp only [validate_log]
  rw [h1]
  show (if log_id = "" then ((false, none) : Bool × Option String) else _).2 = some log_id
  rw [if_neg hne]
  split_ifs <;> rfl

theorem validate_log_true_iff (kvs : List (String × Json)) (log_id : String)
    (h1 : kvs.lookup "log_id" = some (.str log_id)) (hne : log_id ≠ "") :
    (validate_log (.obj kvs)).1 = true ↔
      (REQUIRED_FIELDS.all fun f => (kvs.lookup f).isSome) = true ∧
      isNonEmptyStr (kvs.lookup "trace_id") = true ∧
      isStr (kvs.lookup "node_id") = true ∧
      isValidEventType (kvs.lookup "event_type") = true ∧
      isNum (kvs.lookup "timestamp_ms") = true ∧
      isNum (kvs.lookup "logical_clock") = true ∧
      isObjOpt (kvs.lookup "payload") = true ∧
      isNullOrStr (kvs.lookup "causal_ref") = true := by
  have hb : ∀ b : Bool, ¬((!b) = true) ↔ b = true := by
    intro b
    cases b <;> simp
  simp only [validate_log]
  rw [h1]
  show (if log_id = "" then ((false, none) : Bool × Option String) else _).1 = true ↔ _
  rw [if_neg hne]
  constructor
  · intro h
    split_ifs at h with c1 c2 c3 c4 c5 c6 c7 c8
    all_goals first
      | (exfalso; revert h; simp; done)
      | exact ⟨(hb _).mp c1, (hb _).mp c2, (hb _).mp c3, (hb _).mp c4,
          (hb _).mp c5, (hb _).mp c6, (hb _).mp c7, (hb _).mp c8⟩
  · rintro ⟨c1, c2, c3, c4, c5, c6, c7, c8⟩
    rw [if_neg ((hb _).mpr c1), if_neg ((hb _).mpr c2), if_neg ((hb _).mpr c3),
      if_neg ((hb _).mpr c4), if_neg ((hb _).mpr c5), if_neg ((hb _).mpr c6),
      if_neg ((hb _).mpr c7), if_neg ((hb _).mpr c8)]

/-- C4 (amended): the validator accepts a raw record iff it is a map in
which all eight required fields are present with correct types — where
"numeric" for `timestamp_ms` and `logical_clock` is Python's
`isinstance(x, (int, float))`, which also admits booleans since `bool`
is a subclass of `int` — and `event_type` is in the closed set the CODE
uses, {INIT, PROCESS, END}, not the spec-named {START, PROCESS, END}
(both divergences from the original claim are exhibited by the
counterexample). -/
theorem C4_validation_amended (log : Json) :
    (validate_log log).1 = true ↔ ValidRecord log := by
  cases log with
  | null => simp [validate_log, ValidRecord, WellFormedRecord]
  | bool b => simp [validate_log, ValidRecord, WellFormedRecord]
  | num n => simp [validate_log, ValidRecord, WellFormedRecord]
  | str s => simp [validate_log, ValidRecord, WellFormedRecord]
  | arr l => simp [validate_log, ValidRecord, WellFormedRecord]
  | obj kvs =>
    constructor
    · intro h
      cases h1 : kvs.lookup "log_id" with
      | none =>
        rw [validate_log_no_id kvs (by rw [h1]; intro s; simp)] at h
        exact absurd h (by simp)
      | some j =>
        cases j with
        | str s =>
          by_cases hse : s = ""
          · subst hse
            rw [validate_log_empty_id kvs h1] at h
            exact absurd h (by simp)
          · obtain ⟨c1, c2, c3, c4, c5, c6, c7, c8⟩ :=
              (validate_log_true_iff kvs s h1 hse).mp h
            refine ⟨kvs, rfl, ⟨s, h1, hse⟩, (isNonEmptyStr_iff _).mp c2,
              (isStr_iff _).mp c3, (isValidEventType_iff _).mp c4,
              (isNum_iff _).mp c5, (isNum_iff _).mp c6, (isObjOpt_iff _).mp c7, ?_⟩
            rcases (isNullOrStr_iff _).mp c8 with hn | h0 | hs2
            · exfalso
              have hpres := List.all_eq_true.mp c1 "causal_ref" (by simp [REQUIRED_FIELDS])
              rw [hn] at hpres
              exact absurd hpres (by simp)
            · exact Or.inl h0
            · exact Or.inr hs2
        | null =>
          rw [validate_log_no_id kvs (by rw [h1]; intro s; simp)] at h
          exact absurd h (by simp)
        | bool b =>
          rw [validate_log_no_id kvs (by rw [h1]; intro s; simp)] at h
          exact absurd h (by simp)
        | num n =>
          rw [validate_log_no_id kvs (by rw [h1]; intro s; simp)] at h
          exact absurd h (by simp)
        | arr l =>
          rw [validate_log_no_id kvs (by rw [h1]; intro s; simp)] at h
          exact absurd h (by simp)
        | obj o =>
          rw [validate_log_no_id kvs (by rw [h1]; intro s; simp)] at h
          exact absurd h (by simp)
    · rintro ⟨kvs', he, ⟨s, hs, hsne⟩, hB, hC, hD, hE, hF, hG, hH⟩
      injection he with he
      subst he
      rw [validate_log_true_iff kvs s hs hsne]
      obtain ⟨st, hst, hstne⟩ := hB
      obtain ⟨sn, hsn⟩ := hC
      obtain ⟨se, hse, hsev⟩ := hD
      obtain ⟨pp, hpp⟩ := hG
      refine ⟨?_, (isNonEmptyStr_iff _).mpr ⟨st, hst, hstne⟩,
        (isStr_iff _).mpr ⟨sn, hsn⟩, (isValidEventType_iff _).mpr ⟨se, hse, hsev⟩,
        (isNum_iff _).mpr hE, (isNum_iff _).mpr hF,
        (isObjOpt_iff _).mpr ⟨pp, hpp⟩, (isNullOrStr_iff _).mpr ?_⟩
      · rw [List.all_eq_true]
        intro f hf
        simp only [REQUIRED_FIELDS, List.mem_cons, List.not_mem_nil, or_false] at hf
        rcases hf with rfl | rfl | rfl | rfl | rfl | rfl | rfl | rfl
        · rw [hs]; rfl
        · rw [hst]; rfl
        · rw [hsn]; rfl
        · rw [hse]; rfl
        · rcases hE with ⟨nt, hnt⟩ | ⟨bt, hbt⟩
          · rw [hnt]; rfl
          · rw [hbt]; rfl
        · rcases hF with ⟨nc, hnc⟩ | ⟨bc, hbc⟩
          · rw [hnc]; rfl
          · rw [hbc]; rfl
        · rw [hpp]; rfl
        · rcases hH with h0 | ⟨sc, hsc⟩
          · rw [h0]; rfl
          · rw [hsc]; rfl
      · rcases hH with h0 | hs2
        · exact Or.inr (Or.inl h0)
        · exact Or.inr (Or.inr hs2)

/-- C4 is refuted on the code as the spec words it, in both directions
of the claimed iff: `jStart` satisfies the spec's validity predicate
(its event type "START" is in the spec's closed set) yet the validator
rejects it, the code's set being {INIT, PROCESS, END}; and `jBool`
(event type INIT, `timestamp_ms` the boolean `true`) is ACCEPTED by the
validator — Python's `isinstance(x, (int, float))` admits booleans —
yet fails the spec's predicate. -/
theorem C4_validation_counterexample :
    ((validate_log jStart).1 = false ∧ ValidRecordClaim jStart) ∧
    ((validate_log jBool).1 = true ∧ ¬ ValidRecordClaim jBool) := by
  refine ⟨⟨rfl, ?_⟩, rfl, ?_⟩
  · refine ⟨[("log_id", .str "s1"), ("trace_id", .str "tg"), ("node_id", .str "n"),
      ("event_type", .str "START"), ("timestamp_ms", .num 1), ("logical_clock", .num 1),
      ("payload", .obj []), ("causal_ref", .null)], rfl,
      ⟨"s1", rfl, by decide⟩, ⟨"tg", rfl, by decide⟩, ⟨"n", rfl⟩,
      ⟨"START", rfl, by decide⟩, ⟨1, rfl⟩, ⟨1, rfl⟩, ⟨[], rfl⟩, Or.inl rfl⟩
  · intro h
    unfold ValidRecordClaim WellFormedRecord at h
    obtain ⟨kvs, he, -, -, -, ⟨s, hs, hsmem⟩, -, -, -, -⟩ := h
    have he2 : Json.obj jBoolKvs = Json.obj kvs := he
    injection he2 with he2
    subst he2
    have h0 : (some (Json.str "INIT") : Option Json) = some (.str s) := hs
    injection h0 with h0
    injection h0 with h0
    rw [← h0] at hsmem
    exact absurd hsmem (by decide)

/-- Closed instance of C4's amended statement: the fully-valid record
`jGood` (event type INIT) is accepted. -/
theorem C4_validation_amended_witness : (validate_log jGood).1 = true :=
  (C4_validation_amended jGood).mpr
    ⟨[("log_id", .str "g"), ("trace_id", .str "tg"), ("node_id", .str "n"),
      ("event_type", .str "INIT"), ("timestamp_ms", .num 1), ("logical_clock", .num 1),
      ("payload", .obj []), ("causal_ref", .null)], rfl,
      ⟨"g", rfl, by decide⟩, ⟨"tg", rfl, by decide⟩, ⟨"n", rfl⟩,
      ⟨"INIT", rfl, by decide⟩, Or.inl ⟨1, rfl⟩, Or.inl ⟨1, rfl⟩, ⟨[], rfl⟩, Or.inl rfl⟩

/-! ### C8: rejection outcomes and the malformed list -/

theorem validate_log_some_id (log : Json) (s : String)
    (h : (validate_log log).2 = some s) :
    ∃ kvs, log = .obj kvs ∧ kvs.lookup "log_id" = some (.str s) ∧ s ≠ "" := by
  cases log with
  | obj kvs =>
    cases h1 : kvs.lookup "log_id" with
    | none =>
      rw [validate_log_no_id kvs (by rw [h1]; intro t; simp)] at h
      exact absurd h (by simp)
    | some j =>
      cases j with
      | str t =>
        by_cases ht : t = ""
        · subst ht
          rw [validate_log_empty_id kvs h1] at h
          exact absurd h (by simp)
        · have h2 := validate_log_with_id kvs t h1 ht
          rw [h2] at h
          injection h with h
          subst h
          exact ⟨kvs, rfl, h1, ht⟩
      | null =>
        rw [validate_log_no_id kvs (by rw [h1]; intro t; simp)] at h
        exact absurd h (by simp)
      | bool b =>
        rw [validate_log_no_id kvs (by rw [h1]; intro t; simp)] at h
        exact absurd h (by simp)
      | num n =>
        rw [validate_log_no_id kvs (by rw [h1]; intro t; simp)] at h
        exact absurd h (by simp)
      | arr l =>
        rw [validate_log_no_id kvs (by rw [h1]; intro t; simp)] at h
        exact absurd h (by simp)
      | obj o =>
        rw [validate_log_no_id kvs (by rw [h1]; intro t; simp)] at h
        exact absurd h (by simp)
  | null => exact absurd h (by simp [validate_log])
  | bool b => exact absurd h (by simp [validate_log])
  | num n => exact absurd h (by simp [validate_log])
  | str t => exact absurd h (by simp [validate_log])
  | arr l => exact absurd h (by simp [validate_log])

theorem validate_log_none_iff (log : Json) :
    (validate_log log).2 = none ↔ NoRecoverableId log := by
  cases log with
  | obj kvs =>
    constructor
    · intro h kvs' he s hs
      injection he with he
      subst he
      by_contra hne
      rw [validate_log_with_id kvs s hs hne] at h
      exact absurd h (by simp)
    · intro hN
      cases h1 : kvs.lookup "log_id" with
      | none => rw [validate_log_no_id kvs (by rw [h1]; intro t; simp)]
      | some j =>
        cases j with
        | str t =>
          by_cases ht : t = ""
          · subst ht
            rw [validate_log_empty_id kvs h1]
          · exact absurd (hN kvs rfl t h1) ht
        | null => rw [validate_log_no_id kvs (by rw [h1]; intro t; simp)]
        | bool b => rw [validate_log_no_id kvs (by rw [h1]; intro t; simp)]
        | num n => rw [validate_log_no_id kvs (by rw [h1]; intro t; simp)]
        | arr l => rw [validate_log_no_id kvs (by rw [h1]; intro t; simp)]
        | obj o => rw [validate_log_no_id kvs (by rw [h1]; intro t; simp)]
  | null => simp [validate_log, NoRecoverableId]
  | bool b => simp [validate_log, NoRecoverableId]
  | num n => simp [validate_log, NoRecoverableId]
  | str t => simp [validate_log, NoRecoverableId]
  | arr l => simp [validate_log, NoRecoverableId]

theorem malformed_ids_eq (raw_logs : List Json) :
    malformed_ids raw_logs = raw_logs.filterMap fun log =>
      match validate_log log with
      | (false, some log_id) => some log_id
      | _ => none := by
  induction raw_logs with
  | nil => rfl
  | cons log rest ih =>
    rw [List.filterMap_cons]
    simp only [malformed_ids]
    rcases hv : validate_log log with ⟨b, o⟩
    cases b with
    | true => exact ih
    | false =>
      cases o with
      | none => exact ih
      | some s =>
        have hs : (validate_log log).2 = some s := by rw [hv]
        obtain ⟨_, _, _, hne⟩ := validate_log_some_id log s hs
        show (if s = "" then malformed_ids rest else s :: malformed_ids rest) =
          s :: List.filterMap (fun log =>
            match validate_log log with
            | (false, some log_id) => some log_id
            | _ => none) rest
        rw [if_neg hne, ih]

/-- C8: a raw record is rejected with no recoverable id iff it is not a
map or its `log_id` field is absent, mistyped or empty; every other
rejection carries the record's (non-empty) id; and the pipeline's
`malformed_logs` collects exactly the ids of records rejected with an
id, in input order. -/
theorem C8_malformed_collection :
    (∀ log : Json, (validate_log log).2 = none ↔ NoRecoverableId log) ∧
    (∀ (log : Json) (s : String), (validate_log log).2 = some s →
      ∃ kvs, log = .obj kvs ∧ kvs.lookup "log_id" = some (.str s) ∧ s ≠ "") ∧
    (∀ raw_logs : List Json, malformed_ids raw_logs =
      raw_logs.filterMap fun log =>
        match validate_log log with
        | (false, some log_id) => some log_id
        | _ => none) :=
  ⟨validate_log_none_iff, validate_log_some_id, malformed_ids_eq⟩

/-- Closed instance of C8: the record `jStart` is rejected with its id
"s1" recovered, so its id field is that non-empty string. -/
theorem C8_malformed_collection_witness :
    ∃ kvs, jStart = Json.obj kvs ∧
      kvs.lookup "log_id" = some (.str "s1") ∧ "s1" ≠ "" :=
  C8_malformed_collection.2.1 jStart "s1" (by rfl)

/-- C9: `max_clock_drift_ms` (indeed the whole `system_config`) never
influences the output: two runs on the same `raw_logs` produce identical
documents whatever the configuration holds. -/
theorem C9_drift_knob_unused (raw_logs : List Json)
    (cfg1 cfg2 : List (String × Json)) :
    process_logs raw_logs cfg1 = process_logs raw_logs cfg2 := rfl

end Reconstructor
